import Mathlib

/-!
# Verification of the openapi2typescript service generator core

A shallow embedding of the schema-resolution and naming core of
`src/serviceGenerator.ts` (the `openapi2typescript` generator), together with
theorems settling the specification claims about it.

Conventions of the embedding:
* JavaScript values are modelled by the inductive type `Js` below; JavaScript
  numbers are modelled integrally (every number reached by the claims under
  study is an integer).
* Functions that can throw (`TypeError` on a property access of
  `null`/`undefined`, calling a method absent from a primitive, the generator's
  own `Data Error`) return `Except JsErr _`.
* Recursive procedures whose JavaScript originals recurse through dynamic
  field lookups take an explicit `Nat` fuel as first argument, decreasing by
  one at every recursive call, so that every definition is structurally
  recursive and computable by the kernel.  `JsErr.fuelOut` marks fuel
  exhaustion; all theorems either hold for every fuel or carry an explicit
  fuel hypothesis.
* String manipulation (the JavaScript regex replaces of the source) is done on
  `List Char` by explicit recursion mirroring the regex semantics; each
  definition names the source lines it embeds.
-/

set_option maxRecDepth 8000

namespace OAPI

/-- A JavaScript value as the generator manipulates them: `undefined`, `null`,
booleans, numbers (modelled integrally), strings, arrays, and plain objects
(association lists of fields in insertion order; JavaScript objects cannot
carry a duplicate key, and no embedded value below uses one). -/
inductive Js where
  | undef
  | null
  | bool (b : Bool)
  | num  (n : Int)
  | str  (s : String)
  | arr  (elems : List Js)
  | obj  (fields : List (String × Js))
deriving Repr

/-- Errors surfaced by the embedded code: a JavaScript `TypeError` (property
access on `null`/`undefined`, calling a missing method), the generator's own
`[GenSDK] Data Error!` carrying its message, and fuel exhaustion of the
embedding. -/
inductive JsErr where
  | typeError
  | dataError (msg : String)
  | fuelOut
deriving Repr, DecidableEq

/-- JavaScript truthiness. -/
def truthy : Js → Bool
  | .undef | .null => false
  | .bool b => b
  | .num n => n != 0
  | .str s => s != ""
  | .arr _ | .obj _ => true

/-- `undefined` or `null` — the values on which a property access throws. -/
def nullish : Js → Bool
  | .undef | .null => true
  | _ => false

def Js.isStr : Js → Bool
  | .str _ => true
  | _ => false

def Js.isNum : Js → Bool
  | .num _ => true
  | _ => false

def Js.isBool : Js → Bool
  | .bool _ => true
  | _ => false

def Js.isObj : Js → Bool
  | .obj _ => true
  | _ => false

def Js.isArr : Js → Bool
  | .arr _ => true
  | _ => false

/-! ## Character classes and primitive string operations

JavaScript regex character classes, modelled on code points. -/

/-- JavaScript `\w` = `[A-Za-z0-9_]`. -/
def isWordChar (c : Char) : Bool :=
  (65 ≤ c.toNat && c.toNat ≤ 90) || (97 ≤ c.toNat && c.toNat ≤ 122) ||
  (48 ≤ c.toNat && c.toNat ≤ 57) || c = '_'

/-- ASCII letters and digits (used to state the "identifier-safe" hypotheses). -/
def isAsciiAlphanum (c : Char) : Bool :=
  (65 ≤ c.toNat && c.toNat ≤ 90) || (97 ≤ c.toNat && c.toNat ≤ 122) ||
  (48 ≤ c.toNat && c.toNat ≤ 57)

def isDigitChar (c : Char) : Bool :=
  48 ≤ c.toNat && c.toNat ≤ 57

/-- JavaScript `\s`. -/
def jsIsWhitespace (c : Char) : Bool :=
  c ∈ [' ', '\t', '\n', '\u000B', '\u000C', '\r', '\u00A0', '\u1680',
       '\u2028', '\u2029', '\u202F', '\u205F', '\u3000', '\uFEFF'] ||
  (0x2000 ≤ c.toNat && c.toNat ≤ 0x200A)

/-- The CJK range `[一-龥]` kept by the sanitizer's strip step. -/
def isCJK4E00 (c : Char) : Bool :=
  0x4E00 ≤ c.toNat && c.toNat ≤ 0x9FA5

/-- The range `[㈠-﨩]` that triggers pinyin transliteration. -/
def isCJK3220 (c : Char) : Bool :=
  0x3220 ≤ c.toNat && c.toNat ≤ 0xFA29

/-- `String.prototype.split` on a single-character separator:
`"".split(sep)` is `[""]`, and separators delimit (possibly empty) groups. -/
def splitOnCharL (sep : Char) : List Char → List (List Char)
  | [] => [[]]
  | c :: rest =>
    let r := splitOnCharL sep rest
    if c = sep then [] :: r
    else
      match r with
      | [] => [[c]]
      | g :: gs => (c :: g) :: gs

/-- Does `pat` occur as a contiguous sublist (JavaScript `String.includes`)? -/
def containsSubL (pat : List Char) : List Char → Bool
  | [] => pat.isEmpty
  | c :: rest => pat.isPrefixOf (c :: rest) || containsSubL pat rest

/-- Fuelled scanner for a global, non-rescanning, literal replace
(`s.replace(new RegExp(escape(pat), 'g'), rep)` for a non-empty literal
`pat = p :: ps`): leftmost occurrences are replaced and scanning resumes after
the replaced text, never inside `rep`.  Total and structurally recursive on its
fuel; behaviour is the JavaScript one whenever `fuel ≥ s.length`. -/
def replaceLitGo (p : Char) (ps rep : List Char) : Nat → List Char → List Char
  | _, [] => []
  | 0, l => l
  | fuel+1, c :: rest =>
    if (p :: ps).isPrefixOf (c :: rest) then
      rep ++ replaceLitGo p ps rep fuel (rest.drop ps.length)
    else
      c :: replaceLitGo p ps rep fuel rest

/-- Global literal replace.  An empty pattern leaves the string unchanged
(matching `new RegExp('', 'g')` replacement by the empty string, the only
empty-pattern use the generator makes). -/
def replaceLitL (pat rep s : List Char) : List Char :=
  match pat with
  | [] => s
  | p :: ps => replaceLitGo p ps rep s.length s

/-- `String.prototype.replace` with a literal (non-global) pattern: first
occurrence only.  An empty pattern matches at position 0. -/
def replaceFirstL (pat rep : List Char) : List Char → List Char
  | [] => if pat.isEmpty then rep else []
  | c :: rest =>
    if pat.isEmpty then rep ++ c :: rest
    else if pat.isPrefixOf (c :: rest) then rep ++ (c :: rest).drop pat.length
    else c :: replaceFirstL pat rep rest

/-- `String.prototype.endsWith`. -/
def endsWithL (suffix s : List Char) : Bool :=
  suffix.isSuffixOf s

/-- Render an integer the way JavaScript renders an integral number. -/
def intToJsString (n : Int) : String :=
  if n < 0 then "-" ++ Nat.repr n.natAbs else Nat.repr n.natAbs

/-- String conversion used by `Array.prototype.join` / `toString`:
`null`/`undefined` render as the empty string there. -/
def jsJoinStr : Js → String
  | .undef | .null => ""
  | .bool b => if b then "true" else "false"
  | .num n => intToJsString n
  | .str s => s
  | .arr _ => ""
  | .obj _ => "[object Object]"

/-- String conversion of a template literal `${v}`: `null`/`undefined` render
as `"null"`/`"undefined"`.  (No array or nested object reaches a template
position in the embedded code paths.) -/
def jsTemplateStr : Js → String
  | .undef => "undefined"
  | .null => "null"
  | .bool b => if b then "true" else "false"
  | .num n => intToJsString n
  | .str s => s
  | .arr _ => ""
  | .obj _ => "[object Object]"

/-- `l.join(sep)` on a list of JavaScript values. -/
def jsJoin (sep : String) (l : List Js) : String :=
  String.join ((l.map jsJoinStr).intersperse sep)

/-! ## Object model: property lookup -/

/-- Parse a canonical array index ("0", "1", … without leading zeros). -/
def canonicalIndex (s : String) : Option Nat :=
  if s.data ≠ [] ∧ s.data.all isDigitChar ∧ (s.data.headD '0' ≠ '0' ∨ s = "0") then
    some (s.data.foldl (fun n c => n * 10 + (c.toNat - 48)) 0)
  else none

/-- Non-throwing property read `v[key]` for a non-nullish `v`: objects look up
their field list (first binding), arrays expose canonical indices and
`length`, strings expose `length` and their characters, other primitives have
no own properties.  (JavaScript boxes primitives, yielding `undefined` for
absent names.) -/
def jsGetRaw : Js → String → Js
  | .obj fields, key =>
    match fields.lookup key with
    | some v => v
    | none => .undef
  | .arr xs, key =>
    if key = "length" then .num xs.length
    else
      match canonicalIndex key with
      | some i => (xs.getD i .undef)
      | none => .undef
  | .str s, key =>
    if key = "length" then .num s.length
    else
      match canonicalIndex key with
      | some i =>
        match s.data.get? i with
        | some c => .str ⟨[c]⟩
        | none => .undef
      | none => .undef
  | _, _ => (.undef)

/-- Throwing property read `v[key]`: a `TypeError` on `null`/`undefined`. -/
def jsAccessE (v : Js) (key : String) : Except JsErr Js :=
  if nullish v then .error .typeError else .ok (jsGetRaw v key)

/-- The `in` operator (`'key' in v`): throws a `TypeError` on any primitive,
checks own keys of objects and `length`/indices of arrays. -/
def jsInOpE (key : String) (v : Js) : Except JsErr Bool :=
  match v with
  | .obj fields => .ok (fields.any (fun f => f.1 == key))
  | .arr xs => .ok (key == "length" ||
      (match canonicalIndex key with
       | some i => decide (i < xs.length)
       | none => false))
  | _ => .error .typeError

/-- `Object.keys`: field names of objects, indices of arrays and strings,
nothing for primitives. -/
def jsKeys : Js → List String
  | .obj fields => fields.map (·.1)
  | .arr xs => (List.range xs.length).map (fun i => Nat.repr i)
  | .str s => (List.range s.length).map (fun i => Nat.repr i)
  | _ => []

/-- `SameValueZero`, the equality of JavaScript `Set` membership, restricted
to the values the embedded code deduplicates: primitives compare by value;
two separately constructed objects or arrays are distinct references and
never equal. -/
def jsSameValue : Js → Js → Bool
  | .undef, .undef => true
  | .null, .null => true
  | .bool a, .bool b => a == b
  | .num a, .num b => a == b
  | .str a, .str b => a == b
  | _, _ => false

/-- `Array.from(new Set(l))`: first-seen-order deduplication. -/
def dedupSameValue (seen : List Js) : List Js → List Js
  | [] => []
  | x :: xs =>
    if seen.any (jsSameValue · x) then dedupSameValue seen xs
    else x :: dedupSameValue (x :: seen) xs

/-! ## Identifier sanitizer (lines 53–76 of `serviceGenerator.ts`) -/

/-- Modelled from the spec: the reserved-word check of the external
`reserved-words` package (`ReservedDict.check`, not part of this repository's
sources) — membership in the ECMAScript 5 reserved-word list, which is what
"a reserved keyword of the target language" denotes. -/
def reservedWords : List String :=
  ["break", "case", "catch", "class", "const", "continue", "debugger",
   "default", "delete", "do", "else", "enum", "export", "extends", "false",
   "finally", "for", "function", "if", "implements", "import", "in",
   "instanceof", "interface", "let", "new", "null", "package", "private",
   "protected", "public", "return", "static", "super", "switch", "this",
   "throw", "true", "try", "typeof", "var", "void", "while", "with", "yield"]

def reservedCheck (s : String) : Bool :=
  reservedWords.contains s

/-- Is `c` one of the camel-case separators `[-_ ]`? -/
def camelSep (c : Char) : Bool :=
  c = '-' || c = '_' || c = ' '

/-- The replace `/[-_ ](\w)/g` with `(_, letter) => letter.toUpperCase()`:
a separator immediately followed by a word character is replaced by that word
character upper-cased; matches do not overlap and scanning continues after
each match. -/
def camelList : List Char → List Char
  | [] => []
  | [c] => [c]
  | c :: d :: rest =>
    if camelSep c then
      if isWordChar d then d.toUpper :: camelList rest
      else c :: camelList (d :: rest)
    else c :: camelList (d :: rest)

/-- A character surviving the strip `replace(/[^\w^\s^一-龥]/gi, '')`:
inside the negated class, `\w`, the literal `^`, `\s` and the CJK range are
listed, so exactly those are kept. -/
def keepChar (c : Char) : Bool :=
  isWordChar c || c = '^' || jsIsWhitespace c || isCJK4E00 c

/-- Lines 58–63: the sanitizing pipeline of `resolveTypeName` before its
warning/transliteration branches: replace `[[` by `_`, keep the last
`/`-segment, keep the part before the first `,`, camel-case `[-_ ]`-separated
fragments, strip characters outside the kept class, and delete every
occurrence of the namespace (`new RegExp(namespace, 'g')`; the namespaces the
generator is configured with are literal identifier strings). -/
def sanitizeName (typeName ns : String) : String :=
  let step1 := replaceLitL ['[', '['] ['_'] typeName.data
  let typeLastName := (splitOnCharL '/' step1).getLastD []
  let beforeComma := (splitOnCharL ',' typeLastName).headD []
  let camel := camelList beforeComma
  let stripped := camel.filter keepChar
  ⟨replaceLitL ns.data [] stripped⟩

/-- Result of `resolveTypeName` together with whether the
`⚠️ models不能以number开头` warning was logged. -/
structure ResolvedName where
  result : String
  warned : Bool
deriving Repr, DecidableEq

/-- Lines 54–76, `resolveTypeName(typeName, namespace)`.  `py` stands for the
external `tiny-pinyin` `convertToPinyin(·, '', true)` transliteration (not
part of this repository); theorems quantify over it.  The final branch first
removes空格 runs (`/ +/g`, i.e. exactly the space character) and then
transliterates. -/
def resolveTypeNameFull (py : String → String) (typeName ns : String) : ResolvedName :=
  if reservedCheck typeName then
    { result := "__openAPI__" ++ typeName, warned := false }
  else
    let name := sanitizeName typeName ns
    if name == "_" || (name.data ≠ [] && name.data.all isDigitChar) then
      { result := "Pinyin_" ++ name, warned := true }
    else if !(name.data.any isCJK3220) &&
            !(name.data.length == 1 && isDigitChar (name.data.headD ' ')) then
      { result := name, warned := false }
    else
      { result := py ⟨name.data.filter (· ≠ ' ')⟩, warned := false }

/-- The string `resolveTypeName` returns. -/
def resolveTypeName (py : String → String) (typeName ns : String) : String :=
  (resolveTypeNameFull py typeName ns).result

/-- A stand-in instantiation for the transliteration parameter, used only in
closed evaluations whose execution never reaches the transliteration branch. -/
def pinyinStub : String → String := fun s => s

/-! ## Type resolution engine (lines 86–199, `getType`) -/

/-- Line 99–111: the format/type names coerced to `number` (the source lists
some twice; kept verbatim). -/
def numberEnum : List String :=
  ["int64", "integer", "long", "float", "double", "number", "int", "float",
   "double", "int32", "int64"]

/-- Line 113. -/
def dateEnum : List String :=
  ["Date", "date", "dateTime", "date-time", "datetime"]

/-- Line 115. -/
def stringEnum : List String :=
  ["string", "email", "password", "url", "byte", "binary"]

/-- `list.includes(v)` for a string list against a JavaScript value
(strict equality: only a string can match). -/
def memStrList (l : List String) : Js → Bool
  | .str s => l.contains s
  | _ => false

/-- Lines 78–84, `getRefName` for a reference string `r`: sanitize the last
`/`-segment of the pointer. -/
def getRefName (py : String → String) (r ns : String) : String :=
  resolveTypeName py ⟨(splitOnCharL '/' r.data).getLastD []⟩ ns

/-- Line 94: `[namespace, refName].filter(s => s).join('.')`. -/
def dotJoin (ns refName : String) : String :=
  String.join ((([ns, refName]).filter (fun s => s ≠ "")).intersperse ".")

/-- Effectful `List.mapM` over `Except`, written out so that every use below
is structurally computable. -/
def exceptMapM (f : α → Except JsErr β) : List α → Except JsErr (List β)
  | [] => .ok []
  | x :: xs => (f x).bind (fun v => (exceptMapM f xs).map (fun vs => v :: vs))

/-- Did the computation succeed? -/
def isOkE : Except JsErr β → Bool
  | .ok _ => true
  | .error _ => false

/-- Lines 147–150: one member of a tuple-form `items` list — `subType.schema ||
subType` throws a `TypeError` on a nullish member, then the chosen schema is
resolved by the recursion `rec`. -/
def tupleItemF (rec : Js → Except JsErr Js) (sub : Js) : Except JsErr Js :=
  if nullish sub then .error .typeError
  else rec (if truthy (jsGetRaw sub "schema") then jsGetRaw sub "schema" else sub)

/-- Lines 161–163: one enum member — strings are quoted (the source's
`v.replace(/"/g, '"')` replaces a quote by a quote, a no-op kept verbatim),
anything else is resolved recursively. -/
def enumItemF (rec : Js → Except JsErr Js) (v : Js) : Except JsErr Js :=
  match v with
  | .str s => .ok (.str ("\"" ++ (⟨replaceLitL ['"'] ['"'] s.data⟩ : String) ++ "\""))
  | _ => rec v

/-- Lines 179–195: the rendered fragment for one property `key` of an inline
object: `'required' in (properties[key] || {})` selects the *property-level*
`required` value (and throws a `TypeError` when the property value is a truthy
primitive), the marker `?` is emitted when that value is falsy or absent, and
the property type is resolved by the recursion `rec`. -/
def propFragF (rec : Js → Except JsErr Js) (props : Js) (key : String) : Except JsErr String :=
  (jsInOpE "required" (if truthy (jsGetRaw props key) then jsGetRaw props key else .obj [])).bind
    (fun hasReq =>
      (rec (jsGetRaw props key)).map (fun t =>
        "'" ++ key ++ "'" ++
          (if truthy (if hasReq then
              jsGetRaw (if truthy (jsGetRaw props key) then jsGetRaw props key else .obj [])
                "required"
            else .bool false) then "" else "?") ++ ": " ++ jsTemplateStr t ++ "; "))

/-- Lines 86–199: `getType(schemaObject, namespace)`.  The fuel bounds the
recursion depth; `py` abstracts the transliteration used by the sanitizer.
Each branch carries the source line it mirrors:
* 87–89: `undefined`/`null` → `'any'`;
* 90–92: a non-object is returned unchanged (not necessarily a string);
* 93–95: `$ref` → namespace-qualified reference name (a non-string `$ref`
  value would make `refObject.$ref.split` throw);
* 97–123: the local `type` is overridden to `'number'` on a numeric `format`
  and to `'enum'` when `enum` is truthy;
* 125–139: primitive coercions;
* 141–155: arrays — tuple form when `items` is an array (`subType.schema`
  throws on a `null`/`undefined` member), otherwise the item type is resolved
  and `.includes(' | ')` decides parenthesisation (throwing when the resolved
  item type is a number or boolean, which have no `includes` method);
* 157–167: enums — string members are quoted (`v.replace(/"/g, '"')` in the
  source replaces a quote by a quote, a no-op kept verbatim), others resolved
  recursively, then `Set`-deduplicated and joined;
* 169–174: `oneOf`/`allOf` unions and intersections (`.map` throws when the
  field is truthy with a truthy `length` but is not an array);
* 175–197: inline objects — the optional marker comes from the *property's
  own* `required` field (`'required' in (properties[key] || {})`, a throw on
  truthy primitive property values), and zero keys give the record fallback;
* 198: `'any'`. -/
def getType (py : String → String) : Nat → Js → String → Except JsErr Js
  | 0, _, _ => .error .fuelOut
  | fuel+1, schemaObject, ns =>
    if nullish schemaObject then .ok (.str "any")
    else
      match schemaObject with
      | .bool b => .ok (.bool b)
      | .num n => .ok (.num n)
      | .str s => .ok (.str s)
      | sObj =>
        let ref := jsGetRaw sObj "$ref"
        if truthy ref then
          match ref with
          | .str r => .ok (.str (dotJoin ns (getRefName py r ns)))
          | _ => .error .typeError
        else
          let type0 := jsGetRaw sObj "type"
          let format := jsGetRaw sObj "format"
          let type1 := if memStrList numberEnum format then Js.str "number" else type0
          let enumV := jsGetRaw sObj "enum"
          let type2 := if truthy enumV then Js.str "enum" else type1
          if memStrList numberEnum type2 then .ok (.str "number")
          else if memStrList dateEnum type2 then .ok (.str "Date")
          else if memStrList stringEnum type2 then .ok (.str "string")
          else if jsSameValue type2 (.str "boolean") then .ok (.str "boolean")
          else if jsSameValue type2 (.str "array") then
            let items0 := jsGetRaw sObj "items"
            let schemaF := jsGetRaw sObj "schema"
            let items := if truthy schemaF then jsGetRaw schemaF "items" else items0
            match items with
            | .arr subs =>
              (exceptMapM (tupleItemF (fun v => getType py fuel v ns)) subs).map
                (fun results => .str ("[" ++ jsJoin "," results ++ "]"))
            | _ =>
              (getType py fuel items ns).bind (fun arrayType =>
                match arrayType with
                | .str ts =>
                  .ok (.str (if containsSubL [' ', '|', ' '] ts.data then
                    "(" ++ ts ++ ")[]" else ts ++ "[]"))
                | .arr l =>
                  .ok (.str (if l.any (fun e => jsSameValue e (.str " | ")) then
                    "(" ++ jsJoin "," l ++ ")[]" else jsJoin "," l ++ "[]"))
                | _ => .error .typeError)
          else if jsSameValue type2 (.str "enum") then
            match enumV with
            | .arr vs =>
              (exceptMapM (enumItemF (fun v => getType py fuel v ns)) vs).map
                (fun results =>
                  .str (String.join (((dedupSameValue [] results).map jsJoinStr).intersperse " | ")))
            | _ => .ok (.str "string")
          else
            let oneOf := jsGetRaw sObj "oneOf"
            if truthy oneOf && truthy (jsGetRaw oneOf "length") then
              match oneOf with
              | .arr xs =>
                (exceptMapM (fun item => getType py fuel item ns) xs).map
                  (fun results =>
                    .str (String.join ((results.map jsJoinStr).intersperse " | ")))
              | _ => .error .typeError
            else
              let allOf := jsGetRaw sObj "allOf"
              if truthy allOf && truthy (jsGetRaw allOf "length") then
                match allOf with
                | .arr xs =>
                  (exceptMapM (fun item => getType py fuel item ns) xs).map
                    (fun results =>
                      .str ("(" ++ String.join ((results.map jsJoinStr).intersperse " & ") ++ ")"))
                | _ => .error .typeError
              else if jsSameValue type0 (.str "object") || truthy (jsGetRaw sObj "properties") then
                let props := jsGetRaw sObj "properties"
                let keys := jsKeys (if truthy props then props else .obj [])
                if keys.isEmpty then .ok (.str "Record<string, any>")
                else
                  (exceptMapM (propFragF (fun v => getType py fuel v ns) props) keys).map
                    (fun frags => .str ("\x7b " ++ String.join frags ++ "\x7d"))
              else .ok (.str "any")

/-- The schemas on which `getType` provably does not throw: the value grammar
that keeps every dynamic access of lines 86–199 away from the throwing shapes
identified above (non-string `$ref`, nullish tuple members, numeric/boolean
item types, non-array `oneOf`/`allOf` with a truthy `length`, truthy primitive
property values).  The fuel mirrors `getType`'s recursion exactly; `false` at
fuel 0. -/
def WFgetType : Nat → Js → Bool
  | 0, _ => false
  | fuel+1, s =>
    match s with
    | .obj _ =>
      let ref := jsGetRaw s "$ref"
      if truthy ref then ref.isStr
      else
        let enumV := jsGetRaw s "enum"
        let items0 := jsGetRaw s "items"
        let schemaF := jsGetRaw s "schema"
        let items := if truthy schemaF then jsGetRaw schemaF "items" else items0
        let oneOf := jsGetRaw s "oneOf"
        let allOf := jsGetRaw s "allOf"
        let props := jsGetRaw s "properties"
        (match enumV with
         | .arr vs => vs.all (fun v => WFgetType fuel v)
         | _ => true) &&
        (match items with
         | .arr subs => subs.all (fun sub =>
             !nullish sub &&
             WFgetType fuel (if truthy (jsGetRaw sub "schema") then jsGetRaw sub "schema" else sub))
         | .num _ => false
         | .bool _ => false
         | _ => WFgetType fuel items) &&
        (!(truthy oneOf && truthy (jsGetRaw oneOf "length")) ||
          (match oneOf with
           | .arr xs => xs.all (fun x => WFgetType fuel x)
           | _ => false)) &&
        (!(truthy allOf && truthy (jsGetRaw allOf "length")) ||
          (match allOf with
           | .arr xs => xs.all (fun x => WFgetType fuel x)
           | _ => false)) &&
        (!truthy props ||
          (match props with
           | .obj pfs => pfs.all (fun kv =>
               (!truthy kv.2 || kv.2.isObj || kv.2.isArr) && WFgetType fuel kv.2)
           | _ => false))
    | _ => true

/-! ## Schema model builder: enum resolution (lines 972–1016, `resolveEnumObject`) -/

/-- The configured `enumStyle` (`'enum' | 'string-literal'`, or anything else
hitting the `default` switch case). -/
inductive EnumStyle where
  | enum
  | stringLiteral
  | other
deriving Repr

/-- The first capture of `item.match(/(.*?)\(/)`: the (lazy) run of characters
before the first `(` — `none` when the string has no `(`, in which case the
source's `[1]` access dereferences `null`. -/
def jsMatchParenGroup (s : String) : Option String :=
  if ('(' ∈ s.data) then some ⟨s.data.takeWhile (· ≠ '(')⟩ else none

/-- `replace(/^\S/, s => s.toLowerCase())`: lower-case the first character
when it is not whitespace (the anchored `\S` fails to match otherwise). -/
def lowerFirst (s : String) : String :=
  match s.data with
  | [] => s
  | c :: rest => if jsIsWhitespace c then s else ⟨Char.toLower c :: rest⟩

/-- JavaScript unary `+` on a string, restricted to the integral values this
code base produces: optional sign and decimal digits (after trimming spaces),
the empty string converting to `0`; anything else is `NaN` (`none`). -/
def jsPlusNum (s : String) : Option Int :=
  let t := (s.data.dropWhile (· = ' ')).reverse.dropWhile (· = ' ') |>.reverse
  match t with
  | [] => some 0
  | '-' :: ds =>
    if ds ≠ [] ∧ ds.all isDigitChar then
      some (-(ds.foldl (fun n c => n * 10 + (c.toNat - 48)) 0 : Nat))
    else none
  | '+' :: ds =>
    if ds ≠ [] ∧ ds.all isDigitChar then
      some ((ds.foldl (fun n c => n * 10 + (c.toNat - 48)) 0 : Nat))
    else none
  | ds =>
    if ds.all isDigitChar then
      some ((ds.foldl (fun n c => n * 10 + (c.toNat - 48)) 0 : Nat))
    else none

/-- Lines 982/989/998: `typeof v === 'string' ? v : getType(v, namespace)` —
the raw (unquoted) item string of one enum member. -/
def enumRawItem (rec : Js → Except JsErr Js) (v : Js) : Except JsErr Js :=
  match v with
  | .str s => .ok (.str s)
  | _ => rec v

/-- Lines 985–993: the second `string-literal` loop — numbers are skipped;
otherwise `item.match(/(.*?)\(/)[1]` extracts the label before the first `(`
(throwing a `TypeError` via `null[1]` when the item has no `(`, and via
`.match` when the item is not a string), and the quoted label plus its
`lowerFirst` alias are pushed. -/
def enumAliasF (rec : Js → Except JsErr Js) (v : Js) : Except JsErr (List Js) :=
  match v with
  | .num _ => .ok []
  | _ =>
    (enumRawItem rec v).bind (fun item =>
      match item with
      | .str is =>
        match jsMatchParenGroup is with
        | some key =>
          .ok [.str ("\"" ++ (⟨replaceLitL ['"'] ['"'] key.data⟩ : String) ++ "\""),
               .str ("\"" ++ (⟨replaceLitL ['"'] ['"'] (lowerFirst key).data⟩ : String) ++ "\"")]
        | none => .error .typeError
      | _ => .error .typeError)

/-- Lines 994–1000: the third `string-literal` loop — numbers are skipped;
`item.split('=')[1]` is pushed, coerced to a number when `+part` is not `NaN`,
and `undefined` is pushed when there is no `=` part. -/
def enumValueF (rec : Js → Except JsErr Js) (v : Js) : Except JsErr (List Js) :=
  match v with
  | .num _ => .ok []
  | _ =>
    (enumRawItem rec v).bind (fun item =>
      match item with
      | .str is =>
        match (splitOnCharL '=' is.data).get? 1 with
        | none => .ok [.undef]
        | some p =>
          .ok [match jsPlusNum ⟨p⟩ with
               | some n => .num n
               | none => .str ⟨p⟩]
      | _ => .error .typeError)

/-- The `{ isEnum, type }` record `resolveEnumObject` returns. -/
structure EnumResolved where
  isEnum : Bool
  type : Js
deriving Repr

/-- Lines 972–1016, `resolveEnumObject(schemaObject)` under the configured
`enumStyle`:
* `'enum'` renders `{A="A",B="B"}` pairs (a `.map` on a non-array `enum`
  field throws);
* `'string-literal'` pushes the quoted literals (line 980–984, identical to
  `getType`'s enum members), then the paren-label aliases (lines 985–993),
  then the `=`-value parts (lines 994–1000), `Set`-deduplicates and joins
  with `|`;
* any other style leaves `enumStr` undefined.
The final `type` is the computed string only when the `enum` field is an
array, and the string `'string'` otherwise (line 1014). -/
def resolveEnumObject (py : String → String) (fuel : Nat) (style : EnumStyle)
    (ns : String) (schemaObject : Js) : Except JsErr EnumResolved :=
  let enumArray := jsGetRaw schemaObject "enum"
  let isEnumB := match style with
    | .enum => true
    | _ => false
  ((match style with
   | .enum =>
     match enumArray with
     | .arr vs =>
       .ok (Js.str ("\x7b" ++
         String.join ((vs.map (fun v =>
           jsTemplateStr v ++ "=\"" ++ jsTemplateStr v ++ "\"")).intersperse ",") ++ "\x7d"))
     | _ => .error .typeError
   | .stringLiteral =>
     match enumArray with
     | .arr vs =>
       (exceptMapM (enumItemF (fun v => getType py fuel v ns)) vs).bind (fun r1 =>
         (exceptMapM (enumAliasF (fun v => getType py fuel v ns)) vs).bind (fun r2 =>
           (exceptMapM (enumValueF (fun v => getType py fuel v ns)) vs).map (fun r3 =>
             Js.str (String.join
               (((dedupSameValue [] (r1 ++ r2.flatten ++ r3.flatten)).map
                 jsJoinStr).intersperse " | ")))))
     | _ =>
       -- a non-array `enum` reaches line 1014 directly: `enumStr` stays
       -- undefined and `type` becomes `'string'`
       .ok .undef
   | .other => .ok .undef : Except JsErr Js)).map (fun enumStr =>
    { isEnum := isEnumB
      type := match enumArray with
        | .arr _ => enumStr
        | _ => .str "string" })

/-! ## C3: the inline-object branch, named schema shapes -/

/-- An object schema literal as the inline-object branch of line 175 sees it:
`type: 'object'` with the given properties object and the *schema-level*
`required` value. -/
def mkObjSchema (props : List (String × Js)) (req : Js) : Js :=
  .obj [("type", .str "object"), ("properties", .obj props), ("required", req)]

/-- The own-`required` flag of one property value, as the amended C3 wording
states it: a property object (or array) contributes the truthiness of its own
`required` field (absent fields count as optional); a falsy property value
counts as optional; a truthy primitive property value makes the renderer
throw. -/
def ownRequired (v : Js) : Except JsErr Bool :=
  match v with
  | .obj fields =>
    .ok (match fields.lookup "required" with
         | some r => truthy r
         | none => false)
  | .arr _ => .ok false
  | v => if truthy v then .error .typeError else .ok false

/-- The amended C3 rendering of a non-empty inline object, written from the
amended claim's words: for each declared property name (in declaration order),
emit `'name'`, the optional marker `?` unless the property's own schema has a
truthy `required` field, and the recursively resolved type — the schema-level
`required` array is never consulted. -/
def inlineObjectSpec (rec : Js → Except JsErr Js) (props : List (String × Js)) :
    Except JsErr String :=
  (exceptMapM (fun key =>
    (ownRequired (jsGetRaw (.obj props) key)).bind (fun req =>
      (rec (jsGetRaw (.obj props) key)).map (fun t =>
        "'" ++ key ++ "'" ++ (if req then "" else "?") ++ ": " ++
          jsTemplateStr t ++ "; ")))
    (props.map Prod.fst)).map
    (fun frags => "\x7b " ++ String.join frags ++ "\x7d")


/-! ## Reference resolver (lines 1080–1100, `resolveRefObject`) -/

/-- The object literal `{...x, type: t}`: an existing `type` key keeps its
position and is overwritten, otherwise `type` is appended; spreading an array
contributes its indices, spreading a primitive contributes nothing. -/
def jsSetType (x t : Js) : Js :=
  match x with
  | .obj fields =>
    if fields.any (fun f => f.1 == "type") then
      .obj (fields.map (fun f => if f.1 == "type" then ("type", t) else f))
    else .obj (fields ++ [("type", t)])
  | .arr xs =>
    .obj ((xs.enum.map (fun p => (Nat.repr p.1, p.2))) ++ [("type", t)])
  | _ => .obj [("type", t)]

/-- Lines 1088–1090: `refPaths.forEach((node) => { obj = obj[node]; })` — the
segment walk, throwing a `TypeError` as soon as a property of
`undefined`/`null` is read. -/
def resolveRefWalk : Js → List String → Except JsErr Js
  | obj, [] => .ok obj
  | obj, node :: rest => (jsAccessE obj node).bind (fun v => resolveRefWalk v rest)

/-- Lines 1080–1100, `resolveRefObject(refObject)` against the document `doc`:
* a falsy node or one without a truthy `$ref` is returned unchanged;
* a non-string `$ref` throws (`.split` on a non-string);
* a pointer whose first `/`-segment is `#` is walked segment by segment
  (`TypeError` on a missing intermediate segment), and a falsy walk result
  throws the `[GenSDK] Data Error!` carrying the pointer;
* otherwise (external pointer) the node is returned unchanged;
* the result is the resolved node spread together with a `type` field that is
  the target's own resolution chain (line 1096), `resolveRefObject` being
  re-entered — the fuel bounds that recursion.
`resolveRefCont` is lines 1094–1097: `{...resolveRefObject(obj), type:
obj.$ref ? resolveRefObject(obj).type : obj}` with `rec` the re-entry. -/
def resolveRefCont (rec : Js → Except JsErr Js) (obj : Js) : Except JsErr Js :=
  (rec obj).bind (fun r1 =>
    if truthy (jsGetRaw obj "$ref") then
      (rec obj).bind (fun r2 => (jsAccessE r2 "type").map (fun t => jsSetType r1 t))
    else .ok (jsSetType r1 obj))

def resolveRefObject (doc : Js) : Nat → Js → Except JsErr Js
  | fuel, refObject =>
    if ¬truthy refObject then .ok refObject
    else if ¬truthy (jsGetRaw refObject "$ref") then .ok refObject
    else
      match jsGetRaw refObject "$ref" with
      | .str rs =>
        let refPaths := (splitOnCharL '/' rs.data).map (fun l => (⟨l⟩ : String))
        if refPaths.headD "" = "#" then
          (resolveRefWalk doc refPaths.tail).bind (fun obj =>
            if ¬truthy obj then
              .error (.dataError ("[GenSDK] Data Error! Notfoud: " ++ rs))
            else
              match fuel with
              | 0 => .error .fuelOut
              | fuel+1 => resolveRefCont (resolveRefObject doc fuel) obj)
        else .ok refObject
      | _ => .error .typeError


/-! ## generateApis filtering (lines 264, 277, 331–354) -/

/-- Index of the last occurrence of `c`. -/
def lastIdxOf (c : Char) (cs : List Char) : Option Nat :=
  match cs.reverse.findIdx? (· = c) with
  | some k => some (cs.length - 1 - k)
  | none => none

/-- Line 264's `pathReplaceReg = /\$?{.*}/g` with replacement `'__'`: the
pattern is greedy, so the single match runs from the leftmost `{` (including
an immediately preceding `$`) to the *last* `}` of the string; with no brace
pair in order the string is unchanged, and since no `}` survives the
replacement the global flag finds no further match. -/
def collapseTemplate (s : String) : String :=
  let cs := s.data
  match cs.findIdx? (· = '{'), lastIdxOf '}' cs with
  | some i, some j =>
    if i < j then
      let start := if 0 < i ∧ cs.getD (i-1) ' ' = '$' then i - 1 else i
      ⟨cs.take start ++ ['_', '_'] ++ cs.drop (j+1)⟩
    else s
  | _, _ => s

/-- Line 277: the constructor rewrites every configured `generateApis` entry
through the same collapse. -/
def normalizeGenerateApis (raw : List String) : List String :=
  raw.map collapseTemplate

/-- Lines 331–334, `checkPathInApis(apiPath)`: normalize the operation path
and return the first configured entry the normalized path ends with (`find`
returns the entry itself). -/
def checkPathInApis (generateApis : List String) (apiPath : String) : Option String :=
  generateApis.find? (fun api => endsWithL api.data (collapseTemplate apiPath).data)

/-- Lines 338–354: an operation is generated when `generateApis` is not
configured (empty), and otherwise exactly when `checkPathInApis` returns a
truthy value — the found entry itself, so an empty entry is falsy. -/
def apiIncluded (rawGenerateApis : List String) (apiPath : String) : Bool :=
  let gen := normalizeGenerateApis rawGenerateApis
  if gen.length ≠ 0 then
    match checkPathInApis gen apiPath with
    | some a => a ≠ ""
    | none => false
  else true


/-! ## Operation grouper and namer (lines 439–603, `getServiceTP`)

The claims about `getServiceTP` concern which operations enter a tag group's
entry list, the function-name collision bookkeeping, and the position of that
bookkeeping relative to the final sort.  The model below keeps, for each
operation, its raw path and the already-resolved candidate function name
(line 468's `getFinalFileName(this.getFunctionName(newApi))`); the remaining
entry fields (parameters, body, response, type name) influence neither the
collision counter nor the sort and are omitted, and no `apiPrefix` is
configured, so an entry's sort key is its formatted path. -/

/-- One operation as the name-assignment pipeline sees it. -/
structure ApiIn where
  path : String
  cand : String
deriving Repr, DecidableEq

/-- Lines 476–479: the rewrite
`path.replace(/:([^\/]*)|{([^}]*)}/gi, (_, s1, s2) => s1 || s2 interpolated)`:
a `:`-segment (up to the next `/`) or a `{...}` pair becomes a
placeholder written `${name}`; a `{` with no later `}` is left alone.  An
empty `:`-segment renders as `undefined` (`'' || undefined`), an empty brace
pair as the empty name (`undefined || ''`). -/
def formatPathGo : Nat → List Char → List Char
  | _, [] => []
  | 0, l => l
  | fuel+1, c :: rest =>
    if c = ':' then
      let seg := rest.takeWhile (· ≠ '/')
      let name := if seg.isEmpty then "undefined".data else seg
      '$' :: '{' :: name ++ '}' :: formatPathGo fuel (rest.drop seg.length)
    else if c = '{' then
      if '}' ∈ rest then
        let seg := rest.takeWhile (· ≠ '}')
        '$' :: '{' :: seg ++ '}' :: formatPathGo fuel (rest.drop (seg.length + 1))
      else c :: formatPathGo fuel rest
    else c :: formatPathGo fuel rest

def jsFormatPath (s : String) : String :=
  ⟨formatPathGo s.data.length s.data⟩

/-- Update an existing counter key in place. -/
def rdSet (rd : List (String × Nat)) (k : String) (v : Nat) : List (String × Nat) :=
  rd.map (fun p => if p.1 == k then (k, v) else p)

/-- Lines 443 and 470–474: the per-tag `tmpFunctionRD` bookkeeping, walked in
input-document discovery order.  A first occurrence of a non-empty candidate
registers count 1 and keeps its name; a repeat first increments the count and
then appends `_<count>`; an empty candidate is left alone.  The produced pair
keeps the source operation (the entry spreads `...newApi`). -/
def assignNames (rd : List (String × Nat)) : List ApiIn → List (ApiIn × String)
  | [] => []
  | a :: rest =>
    match rd.lookup a.cand with
    | some n =>
      if a.cand ≠ "" then
        (a, a.cand ++ "_" ++ Nat.repr (n+1)) :: assignNames (rdSet rd a.cand (n+1)) rest
      else (a, a.cand) :: assignNames rd rest
    | none =>
      if a.cand ≠ "" then (a, a.cand) :: assignNames ((a.cand, 1) :: rd) rest
      else (a, a.cand) :: assignNames rd rest

/-- Stable insertion of `x` into a `le`-sorted list. -/
def insertSorted (le : α → α → Bool) (x : α) : List α → List α
  | [] => [x]
  | y :: ys => if le x y then x :: y :: ys else y :: insertSorted le x ys

/-- A stable sort, modelling `Array.prototype.sort` (stable per ES2019). -/
def sortByB (le : α → α → Bool) : List α → List α
  | [] => []
  | x :: xs => insertSorted le x (sortByB le xs)

/-- Line 581's comparator `a.path.localeCompare(b.path)`, modelled as code
point order on the formatted paths (the ASCII paths of the claims order the
same way under either collation; the claims proven below are in any case
insensitive to the comparator). -/
def entryPathLe (a b : ApiIn × String) : Bool :=
  !(decide (jsFormatPath b.1.path < jsFormatPath a.1.path))

/-- Lines 444–449, 450–579 and 580–581 of `getServiceTP`, restricted to the
fields above: drop every operation whose raw path contains `${` (line 448),
assign function names in discovery order, then sort the entries by path. -/
def getServiceTPSlim (apis : List ApiIn) : List (ApiIn × String) :=
  sortByB entryPathLe
    (assignNames [] (apis.filter (fun a => !(containsSubL ['$', '{'] a.path.data))))

/-! ## `getFunctionName` (lines 415–430) and its helpers -/

/-- The fields of `APIDataType` that `getFunctionName` reads.  `operationId`
is the empty string when the document omits it (the source tests it for
truthiness, and the empty string is falsy). -/
structure ApiData where
  path : String
  method : String
  operationId : String

/-- `String.prototype.toLowerCase`, character-wise (the code base only
relies on its ASCII behaviour). -/
def jsToLowerStr (s : String) : String :=
  ⟨s.data.map Char.toLower⟩

/-- `String.prototype.toUpperCase`, character-wise. -/
def jsToUpperStr (s : String) : String :=
  ⟨s.data.map Char.toUpper⟩

/-- Modelled from the spec: `stripDot` (imported from `./util`) strips the
disallowed leading `.` from an `operationId` (`replace` anchored at the
start, first occurrence only). -/
def stripDot (s : String) : String :=
  match s.data with
  | '.' :: rest => ⟨rest⟩
  | _ => s

/-- Lines 1111–1117, `resolveFunctionName`: a reserved-word `operationId` is
renamed to `<name>Using<METHOD>`. -/
def resolveFunctionName (functionName method : String) : String :=
  if reservedCheck functionName then functionName ++ "Using" ++ jsToUpperStr method
  else functionName

/-- First-seen-order deduplication of strings — `Array.from(new Set(item))`
on an array of strings (SameValueZero on strings is string equality). -/
def dedupStr (seen : List String) : List String → List String
  | [] => []
  | x :: xs => if seen.contains x then dedupStr seen xs else x :: dedupStr (x :: seen) xs

/-- Column `k` of the segment matrix: the `k`-th segment of each path that
has one, in path order (the nested `forEach` of lines 1057–1065 pushes them
in exactly this order). -/
def segColumn (segs : List (List String)) (k : Nat) : List String :=
  segs.filterMap (fun s => s.get? k)

/-- Lines 1053–1078, `getBasePrefix` (renamed: `getBasePfx`): split every
path on `/`, gather the per-index segment columns, deduplicate each column,
and keep the leading columns that deduplicate to a single value (`every`
stops at the first non-singleton).  The kept singletons are joined with `/`
(`Array.prototype.join` renders a singleton array as its element) and a
trailing `/` is appended. -/
def getBasePfx (paths : List String) : String :=
  let segs := paths.map (fun p => (splitOnCharL '/' p.data).map (fun l => (⟨l⟩ : String)))
  let maxLen := segs.foldl (fun m s => max m s.length) 0
  let arr := (List.range maxLen).map (fun k => segColumn segs k)
  let res := (arr.map (fun col => dedupStr [] col)).takeWhile (fun col => col.length == 1)
  String.intercalate "/" (res.map (fun col => String.intercalate "," col)) ++ "/"

/-- Parse a maximal leading run matched by `(-\w)+`: one or more `-`‑then‑
word-char pairs.  Returns the word character of the LAST pair (JavaScript
keeps only the final repetition's capture) and the remainder. -/
def dashRun : List Char → Option (Char × List Char)
  | '-' :: c :: rest =>
    if isWordChar c then
      match dashRun rest with
      | some (lastc, rest2) => some (lastc, rest2)
      | none => some (c, rest)
    else none
  | _ => none

/-- `s.replace(/(-\w)+/g, (_match, p1) => p1.slice(1).toUpperCase())`: each
maximal dash run collapses to the upper-cased word character of its last
pair.  Fuel is the length of the list (every step consumes ≥ 1 character). -/
def dashReplaceGo : Nat → List Char → List Char
  | 0, cs => cs
  | _ + 1, [] => []
  | fuel + 1, c :: rest =>
    match dashRun (c :: rest) with
    | some (lastc, rest2) => lastc.toUpper :: dashReplaceGo fuel rest2
    | none => c :: dashReplaceGo fuel rest

/-- `s.match(/^{.+}$/gim)` is truthy: some line of `s` is `{`, one or more
non-newline characters, then `}`. -/
def isBracedSeg (cs : List Char) : Bool :=
  (splitOnCharL '\n' cs).any (fun l =>
    match l with
    | '{' :: rest => rest.length ≥ 2 && rest.getLast? == some '}'
    | _ => false)

/-- Line 1028, `toUpperFirstLetter`: `text.charAt(0).toUpperCase() +
text.slice(1)`. -/
def upperFirst (s : String) : String :=
  match s.data with
  | [] => s
  | c :: rest => ⟨c.toUpper :: rest⟩

/-- Lines 1026–1051, `genDefaultFunctionName`: remove the first occurrence
of the common base (`replace` with a string pattern is literal and
non-global), split on `/`, sanitize each segment via `resolveTypeName`,
collapse dash runs, render `{param}` segments as `By<Param>`, upper-case
each segment's first letter, and concatenate. -/
def genDefaultFunctionName (py : String → String) (ns path basePfx : String) : String :=
  let segs := splitOnCharL '/' (replaceFirstL basePfx.data [] path.data)
  String.join (segs.map (fun seg =>
    let s := resolveTypeName py ⟨seg⟩ ns
    let s := if '-' ∈ s.data then (⟨dashReplaceGo s.data.length s.data⟩ : String) else s
    if isBracedSeg s.data then "By" ++ upperFirst ⟨(s.data.drop 1).dropLast⟩
    else upperFirst s))

/-- `List.isPrefixOf` as the matcher for `lastIndexOf`. -/
def jsLastIndexOfSub (pat s : List Char) : Int :=
  match (List.range (s.length + 1)).reverse.find? (fun i => pat.isPrefixOf (s.drop i)) with
  | some i => (i : Int)
  | none => -1

/-- Lines 416–428 of `getFunctionName`, everything before the final
`replace`: choose the name from the hook, the `operationId`, or the path
synthesis, then apply the namespace-truncation heuristic (lines 423–428). -/
def getFunctionNamePre (py : String → String) (hook : Option (ApiData → String))
    (ns : String) (allPaths : List String) (data : ApiData) : String :=
  let basePfx := getBasePfx allPaths
  let functionName :=
    match hook with
    | some f => f data
    | none =>
      if data.operationId ≠ "" then
        resolveFunctionName (stripDot data.operationId) data.method
      else
        data.method ++ genDefaultFunctionName py ns data.path basePfx
  let index := jsLastIndexOfSub (jsToLowerStr ns).data (jsToLowerStr functionName).data
  if index ≠ -1 ∧ functionName.length > 20 then
    data.method ++ (⟨functionName.data.drop (index.toNat + ns.length)⟩ : String)
  else functionName

/-- Lines 415–430, `getFunctionName`: the chosen name with its first
non-whitespace character lower-cased (`replace(/^\S/, s => s.toLowerCase())`,
line 429). -/
def getFunctionName (py : String → String) (hook : Option (ApiData → String))
    (ns : String) (allPaths : List String) (data : ApiData) : String :=
  lowerFirst (getFunctionNamePre py hook ns allPaths data)


/-! ## Totality of `getType` on well-formed schemas -/

theorem isOkE_iff {β : Type} {e : Except JsErr β} : isOkE e = true ↔ ∃ y, e = .ok y := by
  cases e <;> simp [isOkE]

theorem exceptMapM_ok {α β : Type} {f : α → Except JsErr β} {l : List α}
    (h : ∀ x ∈ l, isOkE (f x) = true) : ∃ ys, exceptMapM f l = .ok ys := by
  induction l with
  | nil => exact ⟨[], rfl⟩
  | cons a as ihl =>
    obtain ⟨y, hy⟩ := isOkE_iff.mp (h a (List.mem_cons_self a as))
    obtain ⟨ys, hys⟩ := ihl (fun x hx => h x (List.mem_cons_of_mem a hx))
    refine ⟨y :: ys, ?_⟩
    simp [exceptMapM, hy, hys, Except.bind, Except.map]

theorem jsGetRaw_obj_mem {fs : List (String × Js)} {k : String}
    (hk : k ∈ fs.map Prod.fst) : ∃ v, (k, v) ∈ fs ∧ jsGetRaw (.obj fs) k = v := by
  have hsome : (fs.lookup k).isSome := by
    rw [List.lookup_isSome_iff]
    obtain ⟨p, hp, hfst⟩ := List.mem_map.mp hk
    exact ⟨p, hp, by simp [hfst]⟩
  obtain ⟨v, hv⟩ := Option.isSome_iff_exists.mp hsome
  obtain ⟨l₁, l₂, rfl, -⟩ := List.lookup_eq_some_iff.mp hv
  exact ⟨v, by simp, by simp [jsGetRaw, hv]⟩

theorem getType_wf_ok : ∀ (fuel : Nat) (s : Js) (ns : String) (py : String → String),
    WFgetType fuel s = true →
    ∃ t, getType py fuel s ns = .ok t ∧
      (t.isStr = true ∨ (t = s ∧ (s.isNum || s.isBool) = true)) := by
  intro fuel
  induction fuel with
  | zero => intro s ns py h; simp [WFgetType] at h
  | succ fuel ih =>
    intro s ns py h
    cases s with
    | undef => exact ⟨.str "any", by simp [getType, nullish], Or.inl rfl⟩
    | null => exact ⟨.str "any", by simp [getType, nullish], Or.inl rfl⟩
    | bool b => exact ⟨.bool b, by simp [getType, nullish], Or.inr ⟨rfl, rfl⟩⟩
    | num n => exact ⟨.num n, by simp [getType, nullish], Or.inr ⟨rfl, rfl⟩⟩
    | str s => exact ⟨.str s, by simp [getType, nullish], Or.inl rfl⟩
    | arr xs =>
      have hru : ∀ k : String, k ≠ "length" → canonicalIndex k = none →
          jsGetRaw (.arr xs) k = .undef := by
        intro k hk hci; simp [jsGetRaw, hk, hci]
      have e1 := hru "$ref" (by decide) (by decide)
      have e2 := hru "type" (by decide) (by decide)
      have e3 := hru "format" (by decide) (by decide)
      have e4 := hru "enum" (by decide) (by decide)
      have e5 := hru "oneOf" (by decide) (by decide)
      have e6 := hru "allOf" (by decide) (by decide)
      have e7 := hru "properties" (by decide) (by decide)
      exact ⟨.str "any", by
        simp [getType, nullish, e1, e2, e3, e4, e5, e6, e7, truthy, jsSameValue, memStrList],
        Or.inl rfl⟩
    | obj fs =>
      simp only [WFgetType] at h
      simp only [getType, nullish]
      by_cases href : truthy (jsGetRaw (Js.obj fs) "$ref") = true
      · simp only [href, if_true] at h ⊢
        cases hR : jsGetRaw (Js.obj fs) "$ref" with
        | str r => exact ⟨.str (dotJoin ns (getRefName py r ns)), by simp, Or.inl rfl⟩
        | undef => rw [hR] at h; simp [Js.isStr] at h
        | null => rw [hR] at h; simp [Js.isStr] at h
        | bool b => rw [hR] at h; simp [Js.isStr] at h
        | num n => rw [hR] at h; simp [Js.isStr] at h
        | arr l => rw [hR] at h; simp [Js.isStr] at h
        | obj l => rw [hR] at h; simp [Js.isStr] at h
      · simp only [href, Bool.false_eq_true, if_false] at h ⊢
        simp only [Bool.and_eq_true] at h
        obtain ⟨⟨⟨⟨hA, hB⟩, hC⟩, hD⟩, hE⟩ := h
        have hstr : ∀ (it : Js), it.isNum = false → it.isBool = false →
            WFgetType fuel it = true → ∃ ts, getType py fuel it ns = .ok (.str ts) := by
          intro it hn1 hn2 h3
          obtain ⟨t, ht, hg⟩ := ih it ns py h3
          rcases hg with hs | ⟨rfl, hb⟩
          · cases t with
            | str ts => exact ⟨ts, ht⟩
            | undef => simp [Js.isStr] at hs
            | null => simp [Js.isStr] at hs
            | bool b => simp [Js.isStr] at hs
            | num n => simp [Js.isStr] at hs
            | arr l => simp [Js.isStr] at hs
            | obj l => simp [Js.isStr] at hs
          · rw [hn1, hn2] at hb; simp at hb
        by_cases hEnumT : truthy (jsGetRaw (Js.obj fs) "enum") = true
        · -- `enum` is truthy: the local type is the string "enum"
          have m1 : memStrList numberEnum (Js.str "enum") = false := by decide
          have m2 : memStrList dateEnum (Js.str "enum") = false := by decide
          have m3 : memStrList stringEnum (Js.str "enum") = false := by decide
          have m4 : jsSameValue (Js.str "enum") (Js.str "boolean") = false := by decide
          have m5 : jsSameValue (Js.str "enum") (Js.str "array") = false := by decide
          have m6 : jsSameValue (Js.str "enum") (Js.str "enum") = true := by decide
          simp only [hEnumT, if_true, m1, m2, m3, m4, m5, m6,
            Bool.false_eq_true, if_false]
          cases hEV : jsGetRaw (Js.obj fs) "enum" with
          | arr vs =>
            rw [hEV] at hA
            simp only [List.all_eq_true] at hA
            have hOK : ∀ v ∈ vs,
                isOkE (enumItemF (fun v => getType py fuel v ns) v) = true := by
              intro v hv
              have hW := hA v hv
              cases v with
              | str s => rfl
              | undef => obtain ⟨t, ht, -⟩ := ih _ ns py hW; simp [enumItemF, ht, isOkE]
              | null => obtain ⟨t, ht, -⟩ := ih _ ns py hW; simp [enumItemF, ht, isOkE]
              | bool b => obtain ⟨t, ht, -⟩ := ih _ ns py hW; simp [enumItemF, ht, isOkE]
              | num n => obtain ⟨t, ht, -⟩ := ih _ ns py hW; simp [enumItemF, ht, isOkE]
              | arr l => obtain ⟨t, ht, -⟩ := ih _ ns py hW; simp [enumItemF, ht, isOkE]
              | obj l => obtain ⟨t, ht, -⟩ := ih _ ns py hW; simp [enumItemF, ht, isOkE]
            obtain ⟨ys, hys⟩ := exceptMapM_ok hOK
            refine ⟨Js.str (String.join (List.intersperse " | "
              (List.map jsJoinStr (dedupSameValue [] ys)))), ?_, Or.inl rfl⟩
            simp only [hys]
            rfl
          | undef => exact ⟨_, rfl, Or.inl rfl⟩
          | null => exact ⟨_, rfl, Or.inl rfl⟩
          | bool b => exact ⟨_, rfl, Or.inl rfl⟩
          | num n => exact ⟨_, rfl, Or.inl rfl⟩
          | str s => exact ⟨_, rfl, Or.inl rfl⟩
          | obj l => exact ⟨_, rfl, Or.inl rfl⟩
        · -- `enum` is falsy: the local type stays `type`/format-coerced
          simp only [hEnumT, Bool.false_eq_true, if_false]
          by_cases hFmt : memStrList numberEnum (jsGetRaw (Js.obj fs) "format") = true
          · have m1 : memStrList numberEnum (Js.str "number") = true := by decide
            simp only [hFmt, if_true, m1]
            exact ⟨_, rfl, Or.inl rfl⟩
          · simp only [hFmt, Bool.false_eq_true, if_false]
            by_cases h1 : memStrList numberEnum (jsGetRaw (Js.obj fs) "type") = true
            · simp only [h1, if_true]; exact ⟨_, rfl, Or.inl rfl⟩
            · simp only [h1, Bool.false_eq_true, if_false]
              by_cases h2 : memStrList dateEnum (jsGetRaw (Js.obj fs) "type") = true
              · simp only [h2, if_true]; exact ⟨_, rfl, Or.inl rfl⟩
              · simp only [h2, Bool.false_eq_true, if_false]
                by_cases h3 : memStrList stringEnum (jsGetRaw (Js.obj fs) "type") = true
                · simp only [h3, if_true]; exact ⟨_, rfl, Or.inl rfl⟩
                · simp only [h3, Bool.false_eq_true, if_false]
                  by_cases h4 : jsSameValue (jsGetRaw (Js.obj fs) "type") (Js.str "boolean") = true
                  · simp only [h4, if_true]; exact ⟨_, rfl, Or.inl rfl⟩
                  · simp only [h4, Bool.false_eq_true, if_false]
                    by_cases h5 : jsSameValue (jsGetRaw (Js.obj fs) "type") (Js.str "array") = true
                    · simp only [h5, if_true]
                      generalize hIt : (if truthy (jsGetRaw (Js.obj fs) "schema") = true then
                          jsGetRaw (jsGetRaw (Js.obj fs) "schema") "items"
                        else jsGetRaw (Js.obj fs) "items") = items at hB ⊢
                      cases items with
                      | arr subs =>
                        simp only [List.all_eq_true, Bool.and_eq_true] at hB
                        have hOK : ∀ sub ∈ subs,
                            isOkE (tupleItemF (fun v => getType py fuel v ns) sub) = true := by
                          intro sub hsub
                          obtain ⟨hnn, hwf⟩ := hB sub hsub
                          obtain ⟨t, ht, -⟩ := ih _ ns py hwf
                          have hnn' : nullish sub = false := by
                            cases hxx : nullish sub
                            · rfl
                            · rw [hxx] at hnn; simp at hnn
                          simp [tupleItemF, hnn', ht, isOkE]
                        obtain ⟨ys, hys⟩ := exceptMapM_ok hOK
                        refine ⟨Js.str ("[" ++ jsJoin "," ys ++ "]"), ?_, Or.inl rfl⟩
                        simp only [hys]; rfl
                      | num n => simp at hB
                      | bool b => simp at hB
                      | undef =>
                        obtain ⟨ts, ht⟩ := hstr .undef rfl rfl hB
                        refine ⟨Js.str (if containsSubL [' ', '|', ' '] ts.data then
                          "(" ++ ts ++ ")[]" else ts ++ "[]"), ?_, Or.inl rfl⟩
                        simp only [ht]; rfl
                      | null =>
                        obtain ⟨ts, ht⟩ := hstr .null rfl rfl hB
                        refine ⟨Js.str (if containsSubL [' ', '|', ' '] ts.data then
                          "(" ++ ts ++ ")[]" else ts ++ "[]"), ?_, Or.inl rfl⟩
                        simp only [ht]; rfl
                      | str s =>
                        obtain ⟨ts, ht⟩ := hstr (.str s) rfl rfl hB
                        refine ⟨Js.str (if containsSubL [' ', '|', ' '] ts.data then
                          "(" ++ ts ++ ")[]" else ts ++ "[]"), ?_, Or.inl rfl⟩
                        simp only [ht]; rfl
                      | obj l =>
                        obtain ⟨ts, ht⟩ := hstr (.obj l) rfl rfl hB
                        refine ⟨Js.str (if containsSubL [' ', '|', ' '] ts.data then
                          "(" ++ ts ++ ")[]" else ts ++ "[]"), ?_, Or.inl rfl⟩
                        simp only [ht]; rfl
                    · simp only [h5, Bool.false_eq_true, if_false]
                      by_cases h6 : jsSameValue (jsGetRaw (Js.obj fs) "type") (Js.str "enum") = true
                      · simp only [h6, if_true]
                        cases hEV : jsGetRaw (Js.obj fs) "enum" with
                        | arr vs => rw [hEV] at hEnumT; simp [truthy] at hEnumT
                        | undef => exact ⟨_, rfl, Or.inl rfl⟩
                        | null => exact ⟨_, rfl, Or.inl rfl⟩
                        | bool b => exact ⟨_, rfl, Or.inl rfl⟩
                        | num n => exact ⟨_, rfl, Or.inl rfl⟩
                        | str s => exact ⟨_, rfl, Or.inl rfl⟩
                        | obj l => exact ⟨_, rfl, Or.inl rfl⟩
                      · simp only [h6, Bool.false_eq_true, if_false]
                        by_cases h7 : (truthy (jsGetRaw (Js.obj fs) "oneOf") &&
                            truthy (jsGetRaw (jsGetRaw (Js.obj fs) "oneOf") "length")) = true
                        · rw [h7] at hC
                          simp only [Bool.not_true, Bool.false_or] at hC
                          simp only [h7, if_true]
                          cases hOO : jsGetRaw (Js.obj fs) "oneOf" with
                          | arr xs =>
                            rw [hOO] at hC
                            simp only [List.all_eq_true] at hC
                            have hOK : ∀ v ∈ xs, isOkE (getType py fuel v ns) = true := by
                              intro v hv
                              obtain ⟨t, ht, -⟩ := ih _ ns py (hC v hv)
                              simp [ht, isOkE]
                            obtain ⟨ys, hys⟩ := exceptMapM_ok hOK
                            refine ⟨Js.str (String.join ((ys.map jsJoinStr).intersperse " | ")),
                              ?_, Or.inl rfl⟩
                            simp only [hys]; rfl
                          | undef => rw [hOO] at hC; simp at hC
                          | null => rw [hOO] at hC; simp at hC
                          | bool b => rw [hOO] at hC; simp at hC
                          | num n => rw [hOO] at hC; simp at hC
                          | str s => rw [hOO] at hC; simp at hC
                          | obj l => rw [hOO] at hC; simp at hC
                        · simp only [h7, Bool.false_eq_true, if_false]
                          by_cases h8 : (truthy (jsGetRaw (Js.obj fs) "allOf") &&
                              truthy (jsGetRaw (jsGetRaw (Js.obj fs) "allOf") "length")) = true
                          · rw [h8] at hD
                            simp only [Bool.not_true, Bool.false_or] at hD
                            simp only [h8, if_true]
                            cases hOO : jsGetRaw (Js.obj fs) "allOf" with
                            | arr xs =>
                              rw [hOO] at hD
                              simp only [List.all_eq_true] at hD
                              have hOK : ∀ v ∈ xs, isOkE (getType py fuel v ns) = true := by
                                intro v hv
                                obtain ⟨t, ht, -⟩ := ih _ ns py (hD v hv)
                                simp [ht, isOkE]
                              obtain ⟨ys, hys⟩ := exceptMapM_ok hOK
                              refine ⟨Js.str ("(" ++
                                String.join ((ys.map jsJoinStr).intersperse " & ") ++ ")"),
                                ?_, Or.inl rfl⟩
                              simp only [hys]; rfl
                            | undef => rw [hOO] at hD; simp at hD
                            | null => rw [hOO] at hD; simp at hD
                            | bool b => rw [hOO] at hD; simp at hD
                            | num n => rw [hOO] at hD; simp at hD
                            | str s => rw [hOO] at hD; simp at hD
                            | obj l => rw [hOO] at hD; simp at hD
                          · simp only [h8, Bool.false_eq_true, if_false]
                            by_cases h9 : (jsSameValue (jsGetRaw (Js.obj fs) "type") (Js.str "object") ||
                                truthy (jsGetRaw (Js.obj fs) "properties")) = true
                            · simp only [h9, if_true]
                              by_cases hPr : truthy (jsGetRaw (Js.obj fs) "properties") = true
                              · rw [hPr] at hE
                                simp only [Bool.not_true, Bool.false_or] at hE
                                cases hP : jsGetRaw (Js.obj fs) "properties" with
                                | obj pfs =>
                                  rw [hP] at hE
                                  simp only [List.all_eq_true, Bool.and_eq_true] at hE
                                  rw [hP] at hPr
                                  simp only [hPr, if_true]
                                  by_cases hKE : (jsKeys (Js.obj pfs)).isEmpty = true
                                  · simp only [hKE, if_true]
                                    exact ⟨_, rfl, Or.inl rfl⟩
                                  · simp only [hKE, Bool.false_eq_true, if_false]
                                    have hOK : ∀ key ∈ jsKeys (Js.obj pfs),
                                        isOkE (propFragF (fun v => getType py fuel v ns)
                                          (Js.obj pfs) key) = true := by
                                      intro key hk
                                      have hk' : key ∈ pfs.map Prod.fst := by
                                        simpa [jsKeys] using hk
                                      obtain ⟨v, hmem, hvv⟩ := jsGetRaw_obj_mem hk'
                                      obtain ⟨hshape, hwf⟩ := hE _ hmem
                                      obtain ⟨t, ht, -⟩ := ih v ns py hwf
                                      rw [propFragF, hvv]
                                      by_cases htv : truthy v = true
                                      · have hoa : v.isObj = true ∨ v.isArr = true := by
                                          rw [htv] at hshape
                                          simp only [Bool.not_true, Bool.false_or,
                                            Bool.or_eq_true] at hshape
                                          exact hshape
                                        simp only [htv, if_true]
                                        cases v with
                                        | obj vfs =>
                                          simp [jsInOpE, ht, isOkE, Except.bind, Except.map]
                                        | arr vels =>
                                          simp [jsInOpE, ht, isOkE, Except.bind, Except.map]
                                        | undef => simp [Js.isObj, Js.isArr] at hoa
                                        | null => simp [Js.isObj, Js.isArr] at hoa
                                        | bool b => simp [Js.isObj, Js.isArr] at hoa
                                        | num n => simp [Js.isObj, Js.isArr] at hoa
                                        | str s => simp [Js.isObj, Js.isArr] at hoa
                                      · simp only [htv, Bool.false_eq_true, if_false]
                                        simp [jsInOpE, ht, isOkE, Except.bind, Except.map]
                                    obtain ⟨ys, hys⟩ := exceptMapM_ok hOK
                                    refine ⟨Js.str ("\x7b " ++ String.join ys ++ "\x7d"),
                                      ?_, Or.inl rfl⟩
                                    simp only [hys]; rfl
                                | undef => rw [hP] at hE; simp at hE
                                | null => rw [hP] at hE; simp at hE
                                | bool b => rw [hP] at hE; simp at hE
                                | num n => rw [hP] at hE; simp at hE
                                | str s => rw [hP] at hE; simp at hE
                                | arr l => rw [hP] at hE; simp at hE
                              · simp only [hPr, Bool.false_eq_true, if_false]
                                have hk0 : (jsKeys (Js.obj ([] : List (String × Js)))).isEmpty = true := by
                                  decide
                                simp only [hk0, if_true]
                                exact ⟨_, rfl, Or.inl rfl⟩
                            · simp only [h9, Bool.false_eq_true, if_false]
                              exact ⟨_, rfl, Or.inl rfl⟩


theorem except_map_map {α β γ : Type} (e : Except JsErr α) (f : α → β) (g : β → γ) :
    (e.map f).map g = e.map (fun x => g (f x)) := by
  cases e <;> rfl

theorem exceptMapM_congr {α β : Type} {f g : α → Except JsErr β} {l : List α}
    (h : ∀ x ∈ l, f x = g x) : exceptMapM f l = exceptMapM g l := by
  induction l with
  | nil => rfl
  | cons a as ihl =>
    simp only [exceptMapM, h a (List.mem_cons_self a as),
      ihl (fun x hx => h x (List.mem_cons_of_mem a hx))]

theorem any_key_eq_lookup_isSome (vfs : List (String × Js)) (k : String) :
    (vfs.any (fun f => f.1 == k)) = (vfs.lookup k).isSome := by
  induction vfs with
  | nil => rfl
  | cons p ps ihp =>
    obtain ⟨pk, pv⟩ := p
    by_cases hpk : pk = k
    · subst hpk
      simp [List.lookup_cons]
    · have h1 : (pk == k) = false := by simp [beq_iff_eq, hpk]
      have h2 : (k == pk) = false := by
        simp only [beq_eq_false_iff_ne, ne_eq]
        exact fun h => hpk h.symm
      simp [List.lookup_cons, h1, h2, ihp]

theorem propFragF_eq_spec (rec : Js → Except JsErr Js) (props : List (String × Js))
    (key : String) :
    propFragF rec (.obj props) key =
      (ownRequired (jsGetRaw (.obj props) key)).bind (fun req =>
        (rec (jsGetRaw (.obj props) key)).map (fun t =>
          "'" ++ key ++ "'" ++ (if req then "" else "?") ++ ": " ++
            jsTemplateStr t ++ "; ")) := by
  rw [propFragF]
  cases hv : jsGetRaw (.obj props) key with
  | obj vfs =>
    have htv : truthy (Js.obj vfs) = true := rfl
    simp only [htv, if_true]
    have hi : jsInOpE "required" (Js.obj vfs) = .ok (vfs.any (fun f => f.1 == "required")) := rfl
    rw [hi, any_key_eq_lookup_isSome]
    rcases hL : vfs.lookup "required" with _ | r
    · have ho : ownRequired (Js.obj vfs) = .ok false := by
        simp [ownRequired, hL]
      rw [ho]
      simp [Except.bind, truthy]
    · have ho2 : ownRequired (Js.obj vfs) = .ok (truthy r) := by
        simp [ownRequired, hL]
      rw [ho2]
      have hg : jsGetRaw (Js.obj vfs) "required" = r := by
        simp [jsGetRaw, hL]
      simp [hL, hg, Except.bind]
  | arr xs =>
    have htv : truthy (Js.arr xs) = true := rfl
    have hi : jsInOpE "required" (Js.arr xs) = .ok false := rfl
    have ho : ownRequired (Js.arr xs) = .ok false := rfl
    simp [htv, hi, ho, Except.bind, truthy]
  | undef => rfl
  | null => rfl
  | bool b =>
    cases b with
    | false => rfl
    | true => rfl
  | num n =>
    by_cases hn : n = 0
    · subst hn; rfl
    · have htv : truthy (Js.num n) = true := by simp [truthy, hn]
      have ho : ownRequired (Js.num n) = .error .typeError := by
        simp [ownRequired, htv]
      simp [htv, ho, jsInOpE, Except.bind]
  | str s =>
    by_cases hs : s = ""
    · subst hs; rfl
    · have htv : truthy (Js.str s) = true := by simp [truthy, hs]
      have ho : ownRequired (Js.str s) = .error .typeError := by
        simp [ownRequired, htv]
      simp [htv, ho, jsInOpE, Except.bind]


/-- C3 (amended): in `getType`'s inline-object branch the optional marker is
governed solely by each property's *own* (property-level) `required` field —
the rendering is independent of the schema-level `required` array — and an
object schema with zero declared properties resolves to `Record<string, any>`.
-/
theorem getType_inline_object_amended :
    ∀ (fuel : Nat) (py : String → String) (ns : String)
      (props : List (String × Js)) (req req' : Js),
      getType py (fuel+1) (mkObjSchema props req) ns =
        getType py (fuel+1) (mkObjSchema props req') ns ∧
      (props ≠ [] →
        getType py (fuel+1) (mkObjSchema props req) ns =
          (inlineObjectSpec (fun v => getType py fuel v ns) props).map Js.str) ∧
      getType py (fuel+1) (mkObjSchema [] req) ns = .ok (.str "Record<string, any>") := by
  intro fuel py ns props req req'
  refine ⟨rfl, ?_, rfl⟩
  intro hne
  have hL : getType py (fuel+1) (mkObjSchema props req) ns =
      (if (jsKeys (Js.obj props)).isEmpty = true then Except.ok (Js.str "Record<string, any>")
       else (exceptMapM (propFragF (fun v => getType py fuel v ns) (Js.obj props))
          (jsKeys (Js.obj props))).map
          (fun frags => Js.str ("\x7b " ++ String.join frags ++ "\x7d"))) := rfl
  have hKE : (jsKeys (Js.obj props)).isEmpty = false := by
    cases props with
    | nil => exact absurd rfl hne
    | cons p ps => rfl
  rw [hL, hKE]
  simp only [Bool.false_eq_true, if_false]
  rw [exceptMapM_congr (fun key _ =>
    propFragF_eq_spec (fun v => getType py fuel v ns) props key)]
  rw [inlineObjectSpec, except_map_map]
  rfl

theorem getType_inline_object_amended_witness :
    getType pinyinStub 5
      (mkObjSchema [("a", Js.obj [("type", Js.str "string")])] (Js.arr [Js.str "a"])) "API" =
      (inlineObjectSpec (fun v => getType pinyinStub 4 v "API")
        [("a", Js.obj [("type", Js.str "string")])]).map Js.str :=
  (getType_inline_object_amended 4 pinyinStub "API"
    [("a", Js.obj [("type", Js.str "string")])] (Js.arr [Js.str "a"]) Js.undef).2.1
    (by simp)

/-- C3 fails as stated: a property listed in the schema-level `required` set
is still emitted with the optional marker, because line 182 consults the
property's own `required` field. -/
theorem getType_inline_object_required_counterexample :
    getType pinyinStub 5 (Js.obj [("type", Js.str "object"),
      ("properties", Js.obj [("a", Js.obj [("type", Js.str "string")])]),
      ("required", Js.arr [Js.str "a"])]) "API" =
      .ok (.str "\x7b 'a'?: string; \x7d") ∧
    jsGetRaw (Js.obj [("type", Js.str "object"),
      ("properties", Js.obj [("a", Js.obj [("type", Js.str "string")])]),
      ("required", Js.arr [Js.str "a"])]) "required" = Js.arr [Js.str "a"] :=
  ⟨rfl, rfl⟩

/-- C1 (amended): `getType` returns without throwing on every schema in the
well-formed grammar `WFgetType`, and the result is a type string except that a
bare number or boolean input is returned unchanged. -/
theorem getType_total_on_wf_schemas :
    ∀ (fuel : Nat) (s : Js) (ns : String) (py : String → String),
      WFgetType fuel s = true →
      ∃ t, getType py fuel s ns = .ok t ∧
        (t.isStr = true ∨ (t = s ∧ (s.isNum || s.isBool) = true)) :=
  getType_wf_ok

theorem getType_total_on_wf_schemas_witness :
    WFgetType 5 (Js.obj [("type", Js.str "object"),
      ("properties", Js.obj [("id", Js.obj [("type", Js.str "number")])])]) = true ∧
    ∃ t, getType pinyinStub 5 (Js.obj [("type", Js.str "object"),
      ("properties", Js.obj [("id", Js.obj [("type", Js.str "number")])])]) "API" = .ok t ∧
      (t.isStr = true ∨ (t = Js.obj [("type", Js.str "object"),
        ("properties", Js.obj [("id", Js.obj [("type", Js.str "number")])])] ∧
        ((Js.obj [("type", Js.str "object"),
          ("properties", Js.obj [("id", Js.obj [("type", Js.str "number")])])]).isNum ||
         (Js.obj [("type", Js.str "object"),
          ("properties", Js.obj [("id", Js.obj [("type", Js.str "number")])])]).isBool) = true)) :=
  ⟨by decide, getType_total_on_wf_schemas 5 _ "API" pinyinStub (by decide)⟩

/-- C1 fails as stated: `getType` is not a total string-valued function — a
bare numeric schema value is returned unchanged (not a type string), and an
array schema whose tuple-form `items` contains `null` throws a `TypeError`
(line 149's `subType.schema`). -/
theorem getType_totality_counterexample :
    getType pinyinStub 5 (Js.num 5) "API" = .ok (Js.num 5) ∧
    Js.isStr (Js.num 5) = false ∧
    getType pinyinStub 5
      (Js.obj [("type", Js.str "array"), ("items", Js.arr [Js.null])]) "API" =
      .error .typeError :=
  ⟨rfl, rfl, rfl⟩

/-- C2: on the spec's own example — enum values `["A","B","A"]` with
`enumStyle: 'string-literal'` — the enum resolver does not produce the
deduplicated union `"A" | "B"`: it throws a `TypeError`, because the second
loop's `item.match(/(.*?)\(/)[1]` dereferences `null` for a literal without a
`(`. -/
theorem resolveEnumObject_stringLiteral_throws :
    resolveEnumObject pinyinStub 5 .stringLiteral "NS"
      (Js.obj [("enum", Js.arr [Js.str "A", Js.str "B", Js.str "A"])]) =
      .error .typeError :=
  rfl


/-! ## Claims C4 and C8: the identifier sanitizer -/

theorem camelList_id {s : List Char} (h : ∀ c ∈ s, camelSep c = false) :
    camelList s = s := by
  induction s using camelList.induct with
  | case1 => rfl
  | case2 c => rfl
  | case3 c d rest hsep hword ih =>
    rw [h c (by simp)] at hsep; exact absurd hsep (by simp)
  | case4 c d rest hsep hword ih =>
    rw [h c (by simp)] at hsep; exact absurd hsep (by simp)
  | case5 c d rest hsep ih =>
    rw [camelList, if_neg hsep, ih (fun x hx => h x (List.mem_cons_of_mem c hx))]

theorem splitOnCharL_not_mem {sep : Char} {s : List Char} (h : sep ∉ s) :
    splitOnCharL sep s = [s] := by
  induction s with
  | nil => rfl
  | cons c rest ihr =>
    rw [splitOnCharL]
    have hc : ¬(c = sep) := fun he => h (he ▸ List.mem_cons_self c rest)
    rw [ihr (fun hm => h (List.mem_cons_of_mem c hm))]
    simp [hc]

theorem replaceLitGo_not_head {p : Char} {ps rep : List Char} {s : List Char}
    (h : p ∉ s) : ∀ fuel, replaceLitGo p ps rep fuel s = s := by
  induction s with
  | nil => intro fuel; cases fuel <;> rfl
  | cons c rest ihr =>
    intro fuel
    cases fuel with
    | zero => rfl
    | succ fuel =>
      rw [replaceLitGo]
      have hpre : ((p :: ps).isPrefixOf (c :: rest)) = false := by
        have hc : ¬(p = c) := fun he => h (he ▸ List.mem_cons_self c rest)
        simp [List.isPrefixOf, hc]
      rw [if_neg (by simp [hpre])]
      rw [ihr (fun hm => h (List.mem_cons_of_mem c hm))]

theorem replaceLitGo_not_contains {p : Char} {ps rep : List Char} {s : List Char}
    (h : containsSubL (p :: ps) s = false) : ∀ fuel, replaceLitGo p ps rep fuel s = s := by
  induction s with
  | nil => intro fuel; cases fuel <;> rfl
  | cons c rest ihr =>
    intro fuel
    cases fuel with
    | zero => rfl
    | succ fuel =>
      rw [containsSubL, Bool.or_eq_false_iff] at h
      rw [replaceLitGo, if_neg (by simp [h.1]), ihr h.2]


theorem alnum_not_camelSep {c : Char} (h : isAsciiAlphanum c = true) :
    camelSep c = false := by
  cases hc : camelSep c with
  | false => rfl
  | true =>
    exfalso
    simp only [camelSep, Bool.or_eq_true, decide_eq_true_eq] at hc
    rcases hc with (h1 | h1) | h1 <;> (subst h1; exact absurd h (by decide))

theorem alnum_keepChar {c : Char} (h : isAsciiAlphanum c = true) :
    keepChar c = true := by
  simp only [isAsciiAlphanum, Bool.or_eq_true, Bool.and_eq_true,
    decide_eq_true_eq] at h
  simp only [keepChar, isWordChar, Bool.or_eq_true, Bool.and_eq_true,
    decide_eq_true_eq]
  tauto

theorem alnum_not_CJK3220 {c : Char} (h : isAsciiAlphanum c = true) :
    isCJK3220 c = false := by
  simp only [isAsciiAlphanum, Bool.or_eq_true, Bool.and_eq_true,
    decide_eq_true_eq] at h
  cases hx : isCJK3220 c with
  | false => rfl
  | true =>
    exfalso
    simp only [isCJK3220, Bool.and_eq_true, decide_eq_true_eq] at hx
    omega

theorem sanitizeName_id {x ns : String}
    (hal : x.data.all isAsciiAlphanum = true)
    (hns : ns = "" ∨ containsSubL ns.data x.data = false) :
    sanitizeName x ns = x := by
  have hchar : ∀ c ∈ x.data, isAsciiAlphanum c = true := List.all_eq_true.mp hal
  have hnb : '[' ∉ x.data := fun hm => absurd (hchar _ hm) (by decide)
  have hsl : '/' ∉ x.data := fun hm => absurd (hchar _ hm) (by decide)
  have hcm : ',' ∉ x.data := fun hm => absurd (hchar _ hm) (by decide)
  rw [sanitizeName]
  rw [show replaceLitL ['[', '['] ['_'] x.data = x.data from
    replaceLitGo_not_head hnb _]
  rw [splitOnCharL_not_mem hsl]
  rw [show ([x.data] : List (List Char)).getLastD [] = x.data from rfl]
  rw [splitOnCharL_not_mem hcm]
  rw [show ([x.data] : List (List Char)).headD [] = x.data from rfl]
  rw [camelList_id (fun c hc => alnum_not_camelSep (hchar c hc))]
  rw [List.filter_eq_self.mpr (fun c hc => alnum_keepChar (hchar c hc))]
  have hrem : replaceLitL ns.data [] x.data = x.data := by
    rcases hns with hns | hns
    · subst hns; rfl
    · cases hd : ns.data with
      | nil => rfl
      | cons p ps =>
        rw [hd] at hns
        exact replaceLitGo_not_contains hns _
  rw [hrem]

theorem resolveTypeName_fix {py : String → String} {x ns : String}
    (hal : x.data.all isAsciiAlphanum = true)
    (hres : reservedCheck x = false)
    (hnum : ¬(x.data ≠ [] ∧ x.data.all isDigitChar = true))
    (hns : ns = "" ∨ containsSubL ns.data x.data = false) :
    resolveTypeNameFull py x ns = ⟨x, false⟩ := by
  have hchar : ∀ c ∈ x.data, isAsciiAlphanum c = true := List.all_eq_true.mp hal
  rw [resolveTypeNameFull]
  rw [if_neg (by simp [hres])]
  rw [sanitizeName_id hal hns]
  have hund : (x == "_") = false := by
    cases hb : (x == "_") with
    | false => rfl
    | true =>
      exfalso
      have hx : x = "_" := by simpa [beq_iff_eq] using hb
      subst hx
      exact absurd (hchar '_' (by decide)) (by decide)
  have hdig : (decide (x.data ≠ []) && x.data.all isDigitChar) = false := by
    cases hb : (decide (x.data ≠ []) && x.data.all isDigitChar) with
    | false => rfl
    | true =>
      exfalso
      rw [Bool.and_eq_true, decide_eq_true_eq] at hb
      exact hnum ⟨hb.1, hb.2⟩
  rw [if_neg (by rw [hund, hdig]; simp)]
  have hcjk : x.data.any isCJK3220 = false := by
    cases hb : x.data.any isCJK3220 with
    | false => rfl
    | true =>
      exfalso
      obtain ⟨c, hc, hcc⟩ := List.any_eq_true.mp hb
      rw [alnum_not_CJK3220 (hchar c hc)] at hcc
      exact absurd hcc (by simp)
  have hsd : (x.data.length == 1 && isDigitChar (x.data.headD ' ')) = false := by
    cases hb : (x.data.length == 1 && isDigitChar (x.data.headD ' ')) with
    | false => rfl
    | true =>
      exfalso
      rw [Bool.and_eq_true, beq_iff_eq] at hb
      obtain ⟨hlen, hdig1⟩ := hb
      cases hx : x.data with
      | nil => rw [hx] at hlen; simp at hlen
      | cons c rest =>
        rw [hx] at hlen
        have hr0 : rest = [] := by
          rw [List.length_cons] at hlen
          exact List.length_eq_zero.mp (by omega)
        subst hr0
        refine hnum ⟨by rw [hx]; simp, ?_⟩
        rw [hx]
        rw [hx] at hdig1
        simpa using hdig1
  rw [if_pos (by rw [hcjk, hsd]; rfl)]


theorem singleDigit_false_of_not_numeric {name : String}
    (hn : ¬(name.data ≠ [] ∧ name.data.all isDigitChar = true)) :
    (name.data.length == 1 && isDigitChar (name.data.headD ' ')) = false := by
  cases hb : (name.data.length == 1 && isDigitChar (name.data.headD ' ')) with
  | false => rfl
  | true =>
    exfalso
    rw [Bool.and_eq_true, beq_iff_eq] at hb
    obtain ⟨hlen, hdig1⟩ := hb
    cases hx : name.data with
    | nil => rw [hx] at hlen; simp at hlen
    | cons c rest =>
      rw [hx] at hlen
      have hr0 : rest = [] := by
        rw [List.length_cons] at hlen
        exact List.length_eq_zero.mp (by omega)
      subst hr0
      refine hn ⟨by rw [hx]; simp, ?_⟩
      rw [hx]
      rw [hx] at hdig1
      simpa using hdig1

theorem warnCond_false_of {name : String} (hu : name ≠ "_")
    (hn : ¬(name.data ≠ [] ∧ name.data.all isDigitChar = true)) :
    (name == "_" || (decide (name.data ≠ []) && name.data.all isDigitChar)) = false := by
  have h1 : (name == "_") = false := by
    cases hb : (name == "_") with
    | false => rfl
    | true => exact absurd (by simpa [beq_iff_eq] using hb) hu
  have h2 : (decide (name.data ≠ []) && name.data.all isDigitChar) = false := by
    cases hb : (decide (name.data ≠ []) && name.data.all isDigitChar) with
    | false => rfl
    | true =>
      exfalso
      rw [Bool.and_eq_true, decide_eq_true_eq] at hb
      exact hn ⟨hb.1, hb.2⟩
  rw [h1, h2]
  rfl

/-- C4 (amended): after the sanitizing pipeline of lines 58–63, `resolveTypeName`
logs the warning and prefixes the marker `Pinyin_` exactly when the sanitized
result is the single character `_` or is non-empty purely numeric; an *empty*
sanitized result is returned as-is with no warning and no marker; otherwise the
result is returned unchanged unless it contains a character of the range
U+3220–U+FA29, in which case it is transliterated (spaces removed first). -/
theorem resolveTypeName_warning_branches :
    ∀ (py : String → String) (raw ns name : String),
      reservedCheck raw = false →
      sanitizeName raw ns = name →
      ((name = "_" ∨ (name.data ≠ [] ∧ name.data.all isDigitChar = true)) →
        resolveTypeNameFull py raw ns = ⟨"Pinyin_" ++ name, true⟩) ∧
      ((name ≠ "_" ∧ ¬(name.data ≠ [] ∧ name.data.all isDigitChar = true) ∧
          name.data.any isCJK3220 = false) →
        resolveTypeNameFull py raw ns = ⟨name, false⟩) ∧
      ((name ≠ "_" ∧ ¬(name.data ≠ [] ∧ name.data.all isDigitChar = true) ∧
          name.data.any isCJK3220 = true) →
        resolveTypeNameFull py raw ns = ⟨py ⟨name.data.filter (· ≠ ' ')⟩, false⟩) := by
  intro py raw ns name hres hname
  rw [resolveTypeNameFull, if_neg (by simp [hres]), hname]
  refine ⟨?_, ?_, ?_⟩
  · intro h
    have hcond : (name == "_" || (decide (name.data ≠ []) && name.data.all isDigitChar)) = true := by
      rcases h with h | ⟨h1, h2⟩
      · subst h; rfl
      · simp [h1, h2]
    rw [if_pos hcond]
  · intro h
    obtain ⟨hu, hn, hc⟩ := h
    rw [if_neg (by rw [warnCond_false_of hu hn]; simp)]
    rw [if_pos (by rw [hc, singleDigit_false_of_not_numeric hn]; rfl)]
  · intro h
    obtain ⟨hu, hn, hc⟩ := h
    rw [if_neg (by rw [warnCond_false_of hu hn]; simp)]
    rw [if_neg (by rw [hc, singleDigit_false_of_not_numeric hn]; simp)]

theorem resolveTypeName_warning_branches_witness :
    resolveTypeNameFull pinyinStub "1" "NS" = ⟨"Pinyin_1", true⟩ :=
  (resolveTypeName_warning_branches pinyinStub "1" "NS" "1" (by decide) (by decide)).1
    (Or.inr (by decide))

/-- C4 fails as stated: a raw name whose sanitized result is *empty* (here
`"!"` under namespace `"NS"`) triggers no warning and is returned without the
marker prefix — only the single underscore and non-empty purely numeric
results are marked. -/
theorem resolveTypeName_empty_no_warning_counterexample :
    sanitizeName "!" "NS" = "" ∧
    resolveTypeNameFull pinyinStub "!" "NS" = ⟨"", false⟩ := by
  constructor <;> rfl

/-- C8 (amended): sanitization is idempotent on every ASCII alphanumeric name
that is not a reserved word, not purely numeric, and does not contain the
namespace as a substring — on such names `resolveTypeName` is the identity, so
a second application changes nothing.  (Unrestricted idempotence fails, see
the counterexample.) -/
theorem resolveTypeName_idempotent_on_safe :
    ∀ (py : String → String) (x ns : String),
      x.data.all isAsciiAlphanum = true →
      reservedCheck x = false →
      ¬(x.data ≠ [] ∧ x.data.all isDigitChar = true) →
      (ns = "" ∨ containsSubL ns.data x.data = false) →
      resolveTypeName py x ns = x ∧
      resolveTypeName py (resolveTypeName py x ns) ns = resolveTypeName py x ns := by
  intro py x ns h1 h2 h3 h4
  have hfix : resolveTypeName py x ns = x := by
    rw [resolveTypeName, resolveTypeName_fix h1 h2 h3 h4]
  refine ⟨hfix, ?_⟩
  rw [hfix]
  exact hfix

theorem resolveTypeName_idempotent_on_safe_witness :
    resolveTypeName pinyinStub "Foo" "NS" = "Foo" ∧
    resolveTypeName pinyinStub (resolveTypeName pinyinStub "Foo" "NS") "NS" =
      resolveTypeName pinyinStub "Foo" "NS" :=
  resolveTypeName_idempotent_on_safe pinyinStub "Foo" "NS" (by decide) (by decide)
    (by decide) (Or.inr (by decide))

/-- C8 fails as stated: the ASCII identifier-safe name `"NNSS"` under
namespace `"NS"` sanitizes to `"NS"`, and a second application deletes that
namespace occurrence, yielding `""` — so the double application differs from
the single one. -/
theorem resolveTypeName_not_idempotent_counterexample :
    resolveTypeName pinyinStub (resolveTypeName pinyinStub "NNSS" "NS") "NS" ≠
      resolveTypeName pinyinStub "NNSS" "NS" ∧
    resolveTypeName pinyinStub "NNSS" "NS" = "NS" ∧
    resolveTypeName pinyinStub "NS" "NS" = "" := by
  refine ⟨?_, rfl, rfl⟩
  decide


/-! ## Claim C5: the reference resolver -/

theorem splitOnCharL_ne_nil {sep : Char} {s : List Char} : splitOnCharL sep s ≠ [] := by
  cases s with
  | nil => simp [splitOnCharL]
  | cons c rest =>
    rw [splitOnCharL]
    by_cases hc : c = sep
    · simp [hc]
    · simp only [if_neg hc]
      cases splitOnCharL sep rest <;> simp

theorem splitOnCharL_append_sep {sep : Char} {a t : List Char} (h : sep ∉ a) :
    splitOnCharL sep (a ++ sep :: t) = a :: splitOnCharL sep t := by
  induction a with
  | nil => simp [splitOnCharL]
  | cons c as iha =>
    have hc : ¬(c = sep) := fun he => h (he ▸ List.mem_cons_self c as)
    rw [List.cons_append, splitOnCharL, iha (fun hm => h (List.mem_cons_of_mem c hm))]
    simp [hc]

theorem resolveRefObject_str (doc : Js) (fuel : Nat) (refObject : Js) (rs : String)
    (h1 : truthy refObject = true) (h2 : jsGetRaw refObject "$ref" = .str rs)
    (h3 : truthy (Js.str rs) = true) :
    resolveRefObject doc fuel refObject =
      (if ((splitOnCharL '/' rs.data).map (fun l => (⟨l⟩ : String))).headD "" = "#" then
        (resolveRefWalk doc
            ((splitOnCharL '/' rs.data).map (fun l => (⟨l⟩ : String))).tail).bind
          (fun obj =>
            if ¬truthy obj then
              .error (.dataError ("[GenSDK] Data Error! Notfoud: " ++ rs))
            else
              match fuel with
              | 0 => .error .fuelOut
              | fuel+1 => resolveRefCont (resolveRefObject doc fuel) obj)
      else .ok refObject) := by
  rw [resolveRefObject, if_neg (by simp [h1]), if_neg (by rw [h2]; simp [h3]), h2]

/-- C5 (amended): `resolveRefObject` returns a node unchanged when it carries
no (truthy) `$ref` pointer; for a local pointer, a missing (or falsy) *final*
resolution target throws the `[GenSDK] Data Error!` carrying the unresolved
pointer string, but a missing *intermediate* segment instead throws a bare
`TypeError` that does not carry the pointer. -/
theorem resolveRefObject_spec : ∀ (fuel : Nat),
    (∀ (doc refObject : Js),
      (truthy refObject = false ∨ truthy (jsGetRaw refObject "$ref") = false) →
      resolveRefObject doc fuel refObject = .ok refObject) ∧
    (∀ (fields : List (String × Js)) (k : String),
      ('/' ∉ k.data) →
      truthy (jsGetRaw (Js.obj fields) k) = false →
      resolveRefObject (Js.obj fields) fuel (Js.obj [("$ref", Js.str ("#/" ++ k))]) =
        .error (.dataError ("[GenSDK] Data Error! Notfoud: " ++ ("#/" ++ k)))) ∧
    (∀ (fields : List (String × Js)) (a b : String),
      ('/' ∉ a.data) → ('/' ∉ b.data) →
      jsGetRaw (Js.obj fields) a = .undef →
      resolveRefObject (Js.obj fields) fuel
        (Js.obj [("$ref", Js.str ("#/" ++ a ++ "/" ++ b))]) = .error .typeError) := by
  intro fuel
  refine ⟨?_, ?_, ?_⟩
  · intro doc refObject h
    rcases h with h | h
    · rw [resolveRefObject, if_pos (by simp [h])]
    · rw [resolveRefObject]
      by_cases ht : truthy refObject = true
      · rw [if_neg (by simp [ht]), if_pos (by simp [h])]
      · rw [if_pos (by simpa using ht)]
  · intro fields k hk hfal
    obtain ⟨kd⟩ := k
    have hdata : ("#/" ++ (⟨kd⟩ : String)).data = '#' :: '/' :: kd := rfl
    have hsplit : splitOnCharL '/' ('#' :: '/' :: kd) = [['#'], kd] := by
      rw [splitOnCharL]
      rw [show splitOnCharL '/' ('/' :: kd) = [] :: splitOnCharL '/' kd by
        rw [splitOnCharL]; simp]
      rw [splitOnCharL_not_mem hk]
      simp
    rw [resolveRefObject_str (Js.obj fields) fuel
      (Js.obj [("$ref", Js.str ("#/" ++ (⟨kd⟩ : String)))]) ("#/" ++ (⟨kd⟩ : String))
      rfl rfl rfl]
    rw [hdata, hsplit]
    rw [if_pos (show (([['#'], kd].map (fun l => (⟨l⟩ : String))).headD "" = "#") from rfl)]
    show (resolveRefWalk (Js.obj fields) [⟨kd⟩]).bind _ = _
    rw [show resolveRefWalk (Js.obj fields) [⟨kd⟩] =
      .ok (jsGetRaw (Js.obj fields) ⟨kd⟩) from rfl]
    show (if ¬truthy (jsGetRaw (Js.obj fields) ⟨kd⟩) then _ else _) = _
    rw [if_pos (by simp [hfal])]
  · intro fields a b ha hb hund
    obtain ⟨ad⟩ := a
    obtain ⟨bd⟩ := b
    have hdata : ("#/" ++ (⟨ad⟩ : String) ++ "/" ++ (⟨bd⟩ : String)).data =
        '#' :: '/' :: (ad ++ '/' :: bd) := by
      show (('#' :: '/' :: ad) ++ ['/']) ++ bd = '#' :: '/' :: (ad ++ '/' :: bd)
      simp
    have hsplit : splitOnCharL '/' ('#' :: '/' :: (ad ++ '/' :: bd)) =
        [['#'], ad, bd] := by
      rw [splitOnCharL]
      rw [show splitOnCharL '/' ('/' :: (ad ++ '/' :: bd)) =
        [] :: splitOnCharL '/' (ad ++ '/' :: bd) by rw [splitOnCharL]; simp]
      rw [splitOnCharL_append_sep ha, splitOnCharL_not_mem hb]
      simp
    rw [resolveRefObject_str (Js.obj fields) fuel
      (Js.obj [("$ref", Js.str ("#/" ++ (⟨ad⟩ : String) ++ "/" ++ (⟨bd⟩ : String)))])
      ("#/" ++ (⟨ad⟩ : String) ++ "/" ++ (⟨bd⟩ : String)) rfl rfl rfl]
    rw [hdata, hsplit]
    rw [if_pos (show (([['#'], ad, bd].map (fun l => (⟨l⟩ : String))).headD "" = "#") from rfl)]
    show (resolveRefWalk (Js.obj fields) [⟨ad⟩, ⟨bd⟩]).bind _ = _
    rw [show resolveRefWalk (Js.obj fields) [⟨ad⟩, ⟨bd⟩] =
      (jsAccessE (jsGetRaw (Js.obj fields) ⟨ad⟩) ⟨bd⟩).bind
        (fun v => resolveRefWalk v []) from rfl]
    rw [hund]
    rfl

theorem resolveRefObject_spec_witness :
    resolveRefObject (Js.obj []) 3 (Js.obj [("type", Js.str "string")]) =
      .ok (Js.obj [("type", Js.str "string")]) ∧
    resolveRefObject (Js.obj [("paths", Js.obj [])]) 3
      (Js.obj [("$ref", Js.str "#/missing")]) =
      .error (.dataError "[GenSDK] Data Error! Notfoud: #/missing") ∧
    resolveRefObject (Js.obj [("paths", Js.obj [])]) 3
      (Js.obj [("$ref", Js.str "#/a/b")]) = .error .typeError :=
  ⟨(resolveRefObject_spec 3).1 _ _ (Or.inr (by decide)),
   (resolveRefObject_spec 3).2.1 _ "missing" (by decide) (by decide),
   (resolveRefObject_spec 3).2.2 _ "a" "b" (by decide) (by decide) rfl⟩

/-- C5 fails as stated: for the local pointer `#/a/b` over a document without
`a`, the walk reads a property of `undefined` and aborts with a bare
`TypeError` — not the schema-resolution data error carrying the pointer
string. -/
theorem resolveRefObject_middle_segment_counterexample :
    resolveRefObject (Js.obj [("paths", Js.obj [])]) 3
      (Js.obj [("$ref", Js.str "#/a/b")]) = .error .typeError ∧
    ∀ msg, (JsErr.typeError ≠ JsErr.dataError msg) :=
  ⟨rfl, fun _ h => JsErr.noConfusion h⟩


/-- C7: with `generateApis: ["users/{id}"]` — normalized to `users/__` — the
operation at `/api/v2/users/{id}` passes the whitelist filter, and the one at
`/api/v2/users/{id}/orders` is excluded. -/
theorem generateApis_filter_example :
    apiIncluded ["users/\x7bid\x7d"] "/api/v2/users/\x7bid\x7d" = true ∧
    apiIncluded ["users/\x7bid\x7d"] "/api/v2/users/\x7bid\x7d/orders" = false ∧
    collapseTemplate "users/\x7bid\x7d" = "users/__" ∧
    collapseTemplate "/api/v2/users/\x7bid\x7d" = "/api/v2/users/__" ∧
    collapseTemplate "/api/v2/users/\x7bid\x7d/orders" = "/api/v2/users/__/orders" := by
  refine ⟨?_, ?_, ?_, ?_, ?_⟩ <;> decide


theorem mem_insertSorted {le : α → α → Bool} {x y : α} {l : List α} :
    y ∈ insertSorted le x l ↔ y = x ∨ y ∈ l := by
  induction l with
  | nil => simp [insertSorted]
  | cons a as iha =>
    rw [insertSorted]
    by_cases hle : le x a = true
    · simp [hle]
    · simp only [if_neg hle, List.mem_cons, iha]
      tauto

theorem mem_sortByB {le : α → α → Bool} {y : α} {l : List α} :
    y ∈ sortByB le l ↔ y ∈ l := by
  induction l with
  | nil => simp [sortByB]
  | cons a as iha =>
    rw [sortByB, mem_insertSorted, iha]
    simp

theorem assignNames_src_mem {rd : List (String × Nat)} {l : List ApiIn}
    {e : ApiIn × String} (h : e ∈ assignNames rd l) : e.1 ∈ l := by
  induction l generalizing rd with
  | nil => simp [assignNames] at h
  | cons a as iha =>
    rw [assignNames] at h
    split at h <;> split at h <;>
      (rcases List.mem_cons.mp h with h | h
       · subst h; simp
       · exact List.mem_cons_of_mem a (iha h))

/-- C9: an operation whose path contains the substring `${` is excluded from
`getServiceTP`'s tag-group entry list entirely — no produced entry has it as
its source, regardless of what else is in the group. -/
theorem getServiceTP_excludes_template_paths :
    ∀ (apis : List ApiIn) (a : ApiIn),
      containsSubL ['$', '{'] a.path.data = true →
      ∀ e ∈ getServiceTPSlim apis, e.1 ≠ a := by
  intro apis a ha e he heq
  rw [getServiceTPSlim, mem_sortByB] at he
  have hsrc := assignNames_src_mem he
  rw [List.mem_filter] at hsrc
  rw [heq, ha] at hsrc
  simp at hsrc

theorem getServiceTP_excludes_template_paths_witness :
    containsSubL ['$', '{'] ("/b/$\x7bq\x7d" : String).data = true ∧
    ∀ e ∈ getServiceTPSlim [⟨"/b/$\x7bq\x7d", "f"⟩, ⟨"/a", "g"⟩],
      e.1 ≠ (⟨"/b/$\x7bq\x7d", "f"⟩ : ApiIn) :=
  ⟨by decide,
   getServiceTP_excludes_template_paths [⟨"/b/$\x7bq\x7d", "f"⟩, ⟨"/a", "g"⟩]
     ⟨"/b/$\x7bq\x7d", "f"⟩ (by decide)⟩

/-- C6: two operations of one tag group whose candidate function names
coincide (say `c`) resolve, in input-document discovery order, to `c` and
`c_2`; a third repeat gets `c_3` (the counter starts at 2 and increments per
repeat).  The names travel with their source operations through the final
path sort, i.e. they are assigned before it. -/
theorem getServiceTP_collision :
    ∀ (p1 p2 p3 c : String), c ≠ "" →
      containsSubL ['$', '{'] p1.data = false →
      containsSubL ['$', '{'] p2.data = false →
      containsSubL ['$', '{'] p3.data = false →
      ((⟨p1, c⟩ : ApiIn), c) ∈ getServiceTPSlim [⟨p1, c⟩, ⟨p2, c⟩] ∧
      ((⟨p2, c⟩ : ApiIn), c ++ "_2") ∈ getServiceTPSlim [⟨p1, c⟩, ⟨p2, c⟩] ∧
      ((⟨p3, c⟩ : ApiIn), c ++ "_3") ∈ getServiceTPSlim [⟨p1, c⟩, ⟨p2, c⟩, ⟨p3, c⟩] := by
  intro p1 p2 p3 c hc h1 h2 h3
  have hfil2 : ([⟨p1, c⟩, ⟨p2, c⟩] : List ApiIn).filter
      (fun a => !(containsSubL ['$', '{'] a.path.data)) = [⟨p1, c⟩, ⟨p2, c⟩] := by
    simp [List.filter, h1, h2]
  have hfil3 : ([⟨p1, c⟩, ⟨p2, c⟩, ⟨p3, c⟩] : List ApiIn).filter
      (fun a => !(containsSubL ['$', '{'] a.path.data)) = [⟨p1, c⟩, ⟨p2, c⟩, ⟨p3, c⟩] := by
    simp [List.filter, h1, h2, h3]
  have hasg2 : assignNames [] [(⟨p1, c⟩ : ApiIn), ⟨p2, c⟩] =
      [(⟨p1, c⟩, c), (⟨p2, c⟩, c ++ "_" ++ Nat.repr 2)] := by
    rw [assignNames]
    simp only [List.lookup_nil, if_pos hc]
    rw [assignNames]
    simp only [List.lookup_cons_self, if_pos hc]
    rfl
  have hasg3 : assignNames [] [(⟨p1, c⟩ : ApiIn), ⟨p2, c⟩, ⟨p3, c⟩] =
      [(⟨p1, c⟩, c), (⟨p2, c⟩, c ++ "_" ++ Nat.repr 2),
       (⟨p3, c⟩, c ++ "_" ++ Nat.repr 3)] := by
    rw [assignNames]
    simp only [List.lookup_nil, if_pos hc]
    rw [assignNames]
    simp only [List.lookup_cons_self, if_pos hc]
    rw [assignNames]
    simp only [rdSet, List.map_cons, beq_self_eq_true, if_pos, List.map_nil,
      List.lookup_cons_self, if_pos hc]
    rfl
  have happ2 : c ++ "_" ++ Nat.repr 2 = c ++ "_2" := by
    rw [String.append_assoc]
    rfl
  have happ3 : c ++ "_" ++ Nat.repr 3 = c ++ "_3" := by
    rw [String.append_assoc]
    rfl
  refine ⟨?_, ?_, ?_⟩
  · rw [getServiceTPSlim, mem_sortByB, hfil2, hasg2]
    simp
  · rw [getServiceTPSlim, mem_sortByB, hfil2, hasg2, happ2]
    simp
  · rw [getServiceTPSlim, mem_sortByB, hfil3, hasg3, happ3]
    simp

theorem getServiceTP_collision_witness :
    ((⟨"/b/x", "getUser"⟩ : ApiIn), "getUser") ∈
      getServiceTPSlim [⟨"/b/x", "getUser"⟩, ⟨"/a/y", "getUser"⟩] ∧
    ((⟨"/a/y", "getUser"⟩ : ApiIn), "getUser_2") ∈
      getServiceTPSlim [⟨"/b/x", "getUser"⟩, ⟨"/a/y", "getUser"⟩] ∧
    ((⟨"/c", "getUser"⟩ : ApiIn), "getUser_3") ∈
      getServiceTPSlim [⟨"/b/x", "getUser"⟩, ⟨"/a/y", "getUser"⟩, ⟨"/c", "getUser"⟩] :=
  getServiceTP_collision "/b/x" "/a/y" "/c" "getUser" (by decide)
    (by decide) (by decide) (by decide)


theorem char_ofNat_toNat_97_122 (n : Nat) (h1 : 97 ≤ n) (h2 : n ≤ 122) :
    (Char.ofNat n).toNat = n := by
  interval_cases n <;> decide

theorem toLower_idem (c : Char) : c.toLower.toLower = c.toLower := by
  simp only [Char.toLower]
  by_cases h : c.toNat ≥ 65 ∧ c.toNat ≤ 90
  · rw [if_pos h]
    have hn : (Char.ofNat (c.toNat + 32)).toNat = c.toNat + 32 :=
      char_ofNat_toNat_97_122 _ (by omega) (by omega)
    rw [if_neg (by rw [hn]; omega)]
  · rw [if_neg h, if_neg h]

theorem ws_toLower_fixed (c : Char) (h : jsIsWhitespace c = true) : c.toLower = c := by
  have hn : ¬(c.toNat ≥ 65 ∧ c.toNat ≤ 90) := by
    simp only [jsIsWhitespace, Bool.or_eq_true, Bool.and_eq_true, decide_eq_true_eq,
      List.mem_cons, List.not_mem_nil, or_false] at h
    rcases h with h | ⟨h1, h2⟩
    · rcases h with h|h|h|h|h|h|h|h|h|h|h|h|h|h <;> subst h <;> decide
    · omega
  simp only [Char.toLower]
  rw [if_neg hn]

theorem lowerFirst_head : ∀ (s : String) (c : Char) (rest : List Char),
    (lowerFirst s).data = c :: rest → c.toLower = c := by
  intro ⟨d⟩ c rest h
  match d with
  | [] => exact absurd h (by simp [lowerFirst])
  | c2 :: r2 =>
    have h2 : (if jsIsWhitespace c2 then (⟨c2 :: r2⟩ : String)
        else (⟨Char.toLower c2 :: r2⟩ : String)).data = c :: rest := h
    by_cases hw : jsIsWhitespace c2 = true
    · rw [if_pos hw] at h2
      have hc : c = c2 := (List.cons.injEq .. ▸ h2).1.symm
      rw [hc]
      exact ws_toLower_fixed c2 hw
    · rw [if_neg hw] at h2
      have hc : c = c2.toLower := (List.cons.injEq .. ▸ h2).1.symm
      rw [hc]
      exact toLower_idem c2

/-- C10: for every pinyin hook, naming hook, namespace, path list and
operation data, a non-empty `getFunctionName` result begins with a character
that equals its own lower-case form — the final step lower-cases the first
non-whitespace character, and a whitespace first character is already fixed
by lower-casing. -/
theorem getFunctionName_first_char_lower :
    ∀ (py : String → String) (hook : Option (ApiData → String)) (ns : String)
      (allPaths : List String) (data : ApiData) (c : Char) (rest : List Char),
      (getFunctionName py hook ns allPaths data).data = c :: rest →
      c.toLower = c := by
  intro py hook ns allPaths data c rest h
  rw [getFunctionName] at h
  exact lowerFirst_head _ c rest h

theorem getFunctionName_first_char_lower_witness :
    (getFunctionName pinyinStub none "API" ["/api/v2/users/\x7bid\x7d", "/api/v2/pets"]
        ⟨"/api/v2/users/\x7bid\x7d", "get", ""⟩).data = 'g' :: "etUsersId".data ∧
    Char.toLower 'g' = 'g' :=
  ⟨by decide,
   getFunctionName_first_char_lower pinyinStub none "API"
     ["/api/v2/users/\x7bid\x7d", "/api/v2/pets"]
     ⟨"/api/v2/users/\x7bid\x7d", "get", ""⟩ 'g' "etUsersId".data (by decide)⟩

end OAPI
